import Mathlib

/-!
Verification of the SuperCarpMapper map codec (`src/mapper/map_io.py`) and
tile-defaults codec (`src/mapper/tile_defaults.py`).

Modelling conventions:
* Python strings are modelled as `List Char`.
* Python dicts are modelled as association lists in insertion order, with
  `upsert` for `d[k] = v` and `alookup` for `d[k]` / `k in d`.
* The warnings printed by the code are modelled as an explicit list of
  `Warning` records returned next to the parsed data.
* `int(s)` is modelled on ASCII input (optional whitespace, optional sign,
  digits with CPython's single-underscore digit grouping).
* Reading a file in text mode uses universal newlines: `\r\n`, `\r` and `\n`
  all terminate a line; `pyLines` reproduces this.
-/

namespace Mapper

/-- Whitespace characters stripped by Python `str.strip()` and `int()`. -/
def isPySpace (c : Char) : Bool :=
  c = ' ' || c = '\t' || c = '\n' || c = '\r' || c = '\x0b' || c = '\x0c'

def lstripWs (l : List Char) : List Char := l.dropWhile isPySpace

def rstripWs (l : List Char) : List Char := (l.reverse.dropWhile isPySpace).reverse

/-- Python `str.strip()`. -/
def pystrip (l : List Char) : List Char := rstripWs (lstripWs l)

/-- Python `str.rstrip(cs)`. -/
def rstripChars (cs : List Char) (l : List Char) : List Char :=
  (l.reverse.dropWhile (fun c => c ∈ cs)).reverse

/-- Prepend a character to the first piece of a piece list. -/
def consHead (c : Char) : List (List Char) → List (List Char)
  | [] => [[c]]
  | h :: t => (c :: h) :: t

/-- Splitter state machine: `afterCR` records that the previous character
was a `\r`, so that a following `\n` is part of the same terminator. -/
def pyLinesAux : List Char → Bool → List (List Char)
  | [], _ => []
  | c :: rest, afterCR =>
    if c = '\n' then
      if afterCR then pyLinesAux rest false else [] :: pyLinesAux rest false
    else if c = '\r' then [] :: pyLinesAux rest true
    else consHead c (pyLinesAux rest false)

/-- Lines yielded by iterating a Python text-mode file handle (universal
newlines: `\r\n`, `\r` and `\n` all terminate), terminators removed. -/
def pyLines (l : List Char) : List (List Char) := pyLinesAux l false

def decLim : Option Nat → Option Nat
  | none => none
  | some k => some (k - 1)

/-- Python `str.split(sep)` (`lim = none`) and `str.split(sep, maxsplit)`
(`lim = some maxsplit`). -/
def splitLim (sep : Char) : Option Nat → List Char → List (List Char)
  | _, [] => [[]]
  | lim, c :: rest =>
    if c = sep ∧ lim ≠ some 0 then [] :: splitLim sep (decLim lim) rest
    else consHead c (splitLim sep lim rest)

def digitVal (c : Char) : Nat := c.toNat - 48

def digitsVal (l : List Char) : Nat := l.foldl (fun a c => 10 * a + digitVal c) 0

/-- CPython accepts single `_` separators between digit groups in `int()`. -/
def intChunksOk (l : List Char) : Bool :=
  (splitLim '_' none l).all (fun g => !g.isEmpty && g.all Char.isDigit)

def pyParseNat (l : List Char) : Option Nat :=
  if intChunksOk l then some (digitsVal (l.filter (fun c => c ≠ '_'))) else none

/-- Python `int(s)` on ASCII input: `none` models the `ValueError` case.
An optional leading sign is peeled off the whitespace-stripped text. -/
def pyParseInt (s : List Char) : Option Int :=
  let t := pystrip s
  if t.headD ' ' = '-' then (pyParseNat t.tail).map (fun k : Nat => -(k : Int))
  else if t.headD ' ' = '+' then (pyParseNat t.tail).map (fun k : Nat => (k : Int))
  else (pyParseNat t).map (fun k : Nat => (k : Int))

def digitChar : Nat → Char
  | 0 => '0'
  | 1 => '1'
  | 2 => '2'
  | 3 => '3'
  | 4 => '4'
  | 5 => '5'
  | 6 => '6'
  | 7 => '7'
  | 8 => '8'
  | _ => '9'

/-- Most-significant-last decimal digits of `n`, driven by a fuel argument
so that the definition is structurally recursive. -/
def natDigitsAux : Nat → Nat → List Char
  | 0, _ => []
  | _ + 1, 0 => []
  | fuel + 1, n + 1 => digitChar ((n + 1) % 10) :: natDigitsAux fuel ((n + 1) / 10)

def natStr (n : Nat) : List Char := if n = 0 then ['0'] else (natDigitsAux n n).reverse

/-- Python `str(i)` / f-string rendering of an int. -/
def intStr (n : Int) : List Char :=
  if n < 0 then '-' :: natStr n.natAbs else natStr n.natAbs

/-- Python dict lookup `d[k]` (also backs `k in d`). -/
def alookup {κ α : Type} [DecidableEq κ] (k : κ) : List (κ × α) → Option α
  | [] => none
  | (k2, v) :: rest => if k2 = k then some v else alookup k rest

/-- Python dict assignment `d[k] = v`: update in place, or append. -/
def upsert {κ α : Type} [DecidableEq κ] (k : κ) (v : α) :
    List (κ × α) → List (κ × α)
  | [] => [(k, v)]
  | (k2, v2) :: rest => if k2 = k then (k, v) :: rest else (k2, v2) :: upsert k v rest

abbrev Coord := Int × Int

/-- `Tile` dataclass from `src/mapper/tile.py`. -/
structure Tile where
  sprite : Int
  blocked : Bool
  examine_text : Option (List Char)
deriving DecidableEq, Repr

/-- `MonsterSpawn` dataclass from `src/mapper/monsterspawn.py`. -/
structure MonsterSpawn where
  name : List Char
  respawn_ticks : Int
deriving DecidableEq, Repr

/-- A warning printed by the decoder, tagged with its 1-based line number. -/
structure Warning where
  line_num : Nat
  msg : List Char
deriving DecidableEq, Repr

/-- `MapData` from `src/mapper/map_io.py`. -/
structure MapData where
  header : List (List Char × List Char)
  tiles : List (Coord × Tile)
  spawns : List (Coord × MonsterSpawn)
deriving DecidableEq, Repr

/-- `tiles[coords].examine_text = e`: update the tile object stored at `k`. -/
def setExamine (k : Coord) (e : Option (List Char)) :
    List (Coord × Tile) → List (Coord × Tile)
  | [] => []
  | (k2, t) :: rest =>
    if k2 = k then (k2, { t with examine_text := e }) :: rest
    else (k2, t) :: setExamine k e rest

/-- `_parse_header_line` from `map_io.py`. -/
def parse_header_line (line : List Char)
    (header : List (List Char × List Char)) : List (List Char × List Char) :=
  if line.contains ':' then
    match splitLim ':' (some 1) line with
    | key :: value :: _ => upsert (pystrip key) (pystrip value) header
    | _ => header
  else header

/-- `_parse_tile_line` from `map_io.py`. -/
def parse_tile_line (line : List Char) (line_num : Nat) (valid : List Int)
    (tiles : List (Coord × Tile)) : List (Coord × Tile) × List Warning :=
  match splitLim '\t' none line with
  | p0 :: p1 :: p2 :: p3 :: _ =>
    match pyParseInt p0, pyParseInt p1, pyParseInt p2, pyParseInt p3 with
    | some x, some y, some sprite, some b =>
      if sprite ∈ valid then
        (upsert (x, y) ⟨sprite, b != 0, none⟩ tiles, [])
      else
        (tiles, [⟨line_num, "sprite index not in loaded atlas".data⟩])
    | _, _, _, _ => (tiles, [⟨line_num, "failed to parse tile".data⟩])
  | _ => (tiles, [⟨line_num, "insufficient fields".data⟩])

/-- `_parse_examine_line` from `map_io.py`. -/
def parse_examine_line (line : List Char) (line_num : Nat)
    (tiles : List (Coord × Tile)) : List (Coord × Tile) × List Warning :=
  match splitLim '\t' (some 2) line with
  | p0 :: p1 :: p2 :: _ =>
    match pyParseInt p0, pyParseInt p1 with
    | some x, some y =>
      if (alookup (x, y) tiles).isSome then
        (setExamine (x, y) (if p2.isEmpty then none else some p2) tiles, [])
      else
        (tiles, [⟨line_num, "examine text for non-existent tile".data⟩])
    | _, _ => (tiles, [⟨line_num, "failed to parse examine line".data⟩])
  | _ => (tiles, [⟨line_num, "insufficient fields in examine section".data⟩])

/-- `_parse_spawn_line` from `map_io.py`. -/
def parse_spawn_line (line : List Char) (line_num : Nat)
    (spawns : List (Coord × MonsterSpawn)) :
    List (Coord × MonsterSpawn) × List Warning :=
  match splitLim '\t' none line with
  | p0 :: p1 :: p2 :: p3 :: _ =>
    match pyParseInt p0, pyParseInt p1, pyParseInt p3 with
    | some x, some y, some ticks =>
      if p2.isEmpty then
        (spawns, [⟨line_num, "empty spawn name".data⟩])
      else
        (upsert (x, y) ⟨p2, ticks⟩ spawns, [])
    | _, _, _ => (spawns, [⟨line_num, "failed to parse spawn line".data⟩])
  | _ => (spawns, [⟨line_num, "insufficient fields in spawns section".data⟩])

/-- Parser state of the `_parse_map_file` loop. -/
structure ParseState where
  current_section : Option (List Char)
  header : List (List Char × List Char)
  tiles : List (Coord × Tile)
  spawns : List (Coord × MonsterSpawn)
  warnings : List Warning
deriving DecidableEq, Repr

def initState : ParseState := ⟨none, [], [], [], []⟩

def startsDashes (l : List Char) : Bool := l.take 3 = ['-', '-', '-']

/-- One iteration of the `_parse_map_file` loop, on the (1-based line
number, raw line) pair. -/
def parseStep (valid : List Int) (st : ParseState) (nl : Nat × List Char) :
    ParseState :=
  let line := rstripChars ['\n', '\r'] nl.2
  let stripped := pystrip line
  if stripped.isEmpty ∨ stripped.headD ' ' = '#' then st
  else if startsDashes stripped then
    match st.current_section with
    | none => { st with current_section := some "tiles".data }
    | some _ =>
      let section_name := pystrip (stripped.drop 3)
      let new_section := if section_name.isEmpty then "tiles".data else section_name
      { st with current_section := some new_section }
  else
    match st.current_section with
    | none => { st with header := parse_header_line stripped st.header }
    | some s =>
      if s = "tiles".data then
        let r := parse_tile_line line nl.1 valid st.tiles
        { st with tiles := r.1, warnings := st.warnings ++ r.2 }
      else if s = "examine".data then
        let r := parse_examine_line line nl.1 st.tiles
        { st with tiles := r.1, warnings := st.warnings ++ r.2 }
      else if s = "spawns".data then
        let r := parse_spawn_line line nl.1 st.spawns
        { st with spawns := r.1, warnings := st.warnings ++ r.2 }
      else st

/-- `_parse_map_file` from `map_io.py`, on file content. -/
def parse_map_file (content : List Char) (valid : List Int) :
    MapData × List Warning :=
  let final := ((pyLines content).enumFrom 1).foldl (parseStep valid) initState
  (⟨final.header, final.tiles, final.spawns⟩, final.warnings)

/-- Decode entry point (`load_map` minus the file I/O). -/
def decodeMap (content : String) (valid : List Int) : MapData × List Warning :=
  parse_map_file content.data valid

/-- `_serialize_tile` from `map_io.py`. -/
def serialize_tile (x y : Int) (tile : Tile) : List Char :=
  intStr x ++ '\t' :: intStr y ++ '\t' :: intStr tile.sprite ++ '\t' ::
    (if tile.blocked then ['1'] else ['0'])

/-- The strict order in which Python `sorted` lists distinct coordinates. -/
def keyLt (a b : Coord) : Prop := a.1 < b.1 ∨ (a.1 = b.1 ∧ a.2 < b.2)

instance (a b : Coord) : Decidable (keyLt a b) := by
  unfold keyLt; infer_instance

/-- Insertion step of sorting an association list by coordinate key. -/
def insertByKey {α : Type} (p : Coord × α) :
    List (Coord × α) → List (Coord × α)
  | [] => [p]
  | q :: rest => if keyLt q.1 p.1 then q :: insertByKey p rest else p :: q :: rest

/-- Python `sorted(d.items())` for a coordinate-keyed dict (keys distinct, so
tuple comparison never reaches the values). -/
def sortByKey {α : Type} (l : List (Coord × α)) : List (Coord × α) :=
  l.foldr insertByKey []

def minList (l : List Int) : Int :=
  match l with
  | [] => 0
  | a :: rest => rest.foldl min a

def maxList (l : List Int) : Int :=
  match l with
  | [] => 0
  | a :: rest => rest.foldl max a

/-- `os.path.basename` on a POSIX path. -/
def basename (p : List Char) : List Char := (splitLim '/' none p).getLastD []

def atlasName (atlas : Option (List Char)) : List Char :=
  match atlas with
  | some p => if p.isEmpty then "unknown".data else basename p
  | none => "unknown".data

/-- The header lines written by `save_map`, including the bare delimiter. -/
def headerLines (tiles : List (Coord × Tile)) (atlas : Option (List Char)) :
    List (List Char) :=
  let ks := tiles.map Prod.fst
  let min_x := minList (ks.map Prod.fst)
  let max_x := maxList (ks.map Prod.fst)
  let min_y := minList (ks.map Prod.snd)
  let max_y := maxList (ks.map Prod.snd)
  let width := max_x - min_x + 1
  let height := max_y - min_y + 1
  [ "name:Untitled".data,
    "width:".data ++ intStr width,
    "height:".data ++ intStr height,
    "origin:".data ++ intStr min_x ++ ',' :: intStr min_y,
    "tileset:".data ++ atlasName atlas,
    "---".data ]

/-- The tile lines written by `save_map`. -/
def tileLines (tiles : List (Coord × Tile)) : List (List Char) :=
  (sortByKey tiles).map (fun p => serialize_tile p.1.1 p.1.2 p.2)

/-- `_write_examine_section`: delimiter plus lines, or nothing. -/
def examineLines (tiles : List (Coord × Tile)) : List (List Char) :=
  let examine_tiles := tiles.filter (fun p => p.2.examine_text.isSome)
  if examine_tiles.isEmpty then []
  else
    "--- examine".data ::
      (sortByKey examine_tiles).map (fun p =>
        intStr p.1.1 ++ '\t' :: intStr p.1.2 ++ '\t' :: p.2.examine_text.getD [])

/-- `_write_spawns_section`: delimiter plus lines, or nothing. -/
def spawnLines (spawns : List (Coord × MonsterSpawn)) : List (List Char) :=
  if spawns.isEmpty then []
  else
    "--- spawns".data ::
      (sortByKey spawns).map (fun p =>
        intStr p.1.1 ++ '\t' :: intStr p.1.2 ++ '\t' :: p.2.name ++ '\t' ::
          intStr p.2.respawn_ticks)

/-- Concatenate lines, each write followed by `"\n"` as in `save_map`. -/
def joinLines (ls : List (List Char)) : List Char :=
  ls.foldr (fun l acc => l ++ '\n' :: acc) []

/-- `save_map` from `map_io.py`, minus the file I/O: the produced file
content, or the `ValueError` raised before the destination is opened. -/
def encodeMap (tiles : List (Coord × Tile)) (spawns : List (Coord × MonsterSpawn))
    (atlas : Option (List Char)) : Except (List Char) (List Char) :=
  if tiles.isEmpty then Except.error "Cannot save empty map".data
  else Except.ok (joinLines (headerLines tiles atlas ++ tileLines tiles ++
    examineLines tiles ++ spawnLines spawns))

/-- `TileDefaults` dataclass from `src/mapper/tile_defaults.py`. -/
structure TileDefaults where
  blocked : Bool
  examine_text : Option (List Char)
deriving DecidableEq, Repr

/-- Body of the per-line parse in `load_tile_defaults`. -/
def parse_defaults_line (line : List Char) (line_num : Nat)
    (defaults : List (Int × TileDefaults)) :
    List (Int × TileDefaults) × List Warning :=
  match splitLim '\t' none line with
  | p0 :: p1 :: rest =>
    match pyParseInt p0, pyParseInt p1 with
    | some index, some b =>
      let examine_text := match rest with
        | p2 :: _ => if p2.isEmpty then none else some p2
        | [] => none
      (upsert index ⟨b != 0, examine_text⟩ defaults, [])
    | _, _ => (defaults, [⟨line_num, "failed to parse".data⟩])
  | _ => (defaults, [⟨line_num, "insufficient fields".data⟩])

/-- One iteration of the `load_tile_defaults` loop. -/
def defaultsStep (st : List (Int × TileDefaults) × List Warning)
    (nl : Nat × List Char) : List (Int × TileDefaults) × List Warning :=
  let line := rstripChars ['\n', '\r'] nl.2
  let stripped := pystrip line
  if stripped.isEmpty ∨ stripped.headD ' ' = '#' then st
  else
    let r := parse_defaults_line line nl.1 st.1
    (r.1, st.2 ++ r.2)

/-- `load_tile_defaults` from `tile_defaults.py`, on file content. -/
def decodeTileDefaults (content : String) :
    List (Int × TileDefaults) × List Warning :=
  ((pyLines content.data).enumFrom 1).foldl defaultsStep ([], [])

/-! ## Helper lemmas -/

theorem startsDashes_cons (s : List Char) (h : startsDashes s = true) :
    ∃ t, s = '-' :: '-' :: '-' :: t := by
  match s with
  | [] => simp [startsDashes] at h
  | [a] => simp [startsDashes] at h
  | [a, b] => simp [startsDashes] at h
  | a :: b :: c :: t =>
    simp [startsDashes, List.take] at h
    exact ⟨t, by simp [h.1, h.2.1, h.2.2]⟩

theorem startsDashes_not_blank (s : List Char) (h : startsDashes s = true) :
    ¬(s.isEmpty = true ∨ s.headD ' ' = '#') := by
  obtain ⟨t, rfl⟩ := startsDashes_cons s h
  simp

theorem alookup_setExamine (k : Coord) (e : Option (List Char)) (t : Tile)
    (tiles : List (Coord × Tile)) (h : alookup k tiles = some t) :
    alookup k (setExamine k e tiles) = some { t with examine_text := e } := by
  induction tiles with
  | nil => simp [alookup] at h
  | cons p rest ih =>
    obtain ⟨k2, t2⟩ := p
    by_cases hk : k2 = k
    · subst hk
      simp [alookup, setExamine] at h ⊢
      simp [h]
    · simp [alookup, setExamine, hk] at h ⊢
      exact ih h

theorem keyLt_asymm (a b : Coord) (h1 : keyLt a b) (h2 : keyLt b a) : False := by
  obtain ⟨a1, a2⟩ := a
  obtain ⟨b1, b2⟩ := b
  simp [keyLt] at h1 h2
  omega

theorem keyLt_neg_trans (a b c : Coord) (h1 : ¬keyLt b a) (h2 : ¬keyLt c b) :
    ¬keyLt c a := by
  obtain ⟨a1, a2⟩ := a
  obtain ⟨b1, b2⟩ := b
  obtain ⟨c1, c2⟩ := c
  simp [keyLt] at h1 h2 ⊢
  omega

theorem keyLt_of_not_of_ne (a b : Coord) (h1 : ¬keyLt b a) (h2 : a ≠ b) :
    keyLt a b := by
  obtain ⟨a1, a2⟩ := a
  obtain ⟨b1, b2⟩ := b
  simp [keyLt, Prod.ext_iff] at h1 h2 ⊢
  omega

theorem insertByKey_perm {α : Type} (p : Coord × α) (l : List (Coord × α)) :
    List.Perm (insertByKey p l) (p :: l) := by
  induction l with
  | nil => simp [insertByKey]
  | cons q rest ih =>
    rw [insertByKey]
    split
    · exact ((ih.cons q).trans (List.Perm.swap p q rest)).symm.symm
    · exact List.Perm.refl _

theorem sortByKey_perm {α : Type} (l : List (Coord × α)) :
    List.Perm (sortByKey l) l := by
  induction l with
  | nil => simp [sortByKey]
  | cons p rest ih =>
    have h1 : sortByKey (p :: rest) = insertByKey p (sortByKey rest) := rfl
    rw [h1]
    exact (insertByKey_perm p (sortByKey rest)).trans (ih.cons p)

theorem insertByKey_pairwise {α : Type} (p : Coord × α) (l : List (Coord × α))
    (h : l.Pairwise (fun u v => ¬keyLt v.1 u.1)) :
    (insertByKey p l).Pairwise (fun u v => ¬keyLt v.1 u.1) := by
  induction l with
  | nil => simp [insertByKey]
  | cons q rest ih =>
    rcases List.pairwise_cons.mp h with ⟨hq, hrest⟩
    rw [insertByKey]
    split
    · rename_i hlt
      refine List.pairwise_cons.mpr ⟨?_, ih hrest⟩
      intro x hx
      rcases List.mem_cons.mp ((insertByKey_perm p rest).mem_iff.mp hx) with
        rfl | hx2
      · exact fun hc => keyLt_asymm _ _ hc hlt
      · exact hq x hx2
    · rename_i hnlt
      refine List.pairwise_cons.mpr ⟨?_, h⟩
      intro x hx
      rcases List.mem_cons.mp hx with rfl | hx2
      · exact hnlt
      · exact keyLt_neg_trans p.1 q.1 x.1 hnlt (hq x hx2)

theorem sortByKey_pairwise {α : Type} (l : List (Coord × α)) :
    (sortByKey l).Pairwise (fun u v => ¬keyLt v.1 u.1) := by
  induction l with
  | nil => simp [sortByKey]
  | cons p rest ih => exact insertByKey_pairwise p (sortByKey rest) ih

theorem sortByKey_strict {α : Type} (l : List (Coord × α))
    (hnd : (l.map Prod.fst).Nodup) :
    (sortByKey l).Pairwise (fun u v => keyLt u.1 v.1) := by
  have hperm : List.Perm ((sortByKey l).map Prod.fst) (l.map Prod.fst) :=
    (sortByKey_perm l).map _
  have hnd2 : ((sortByKey l).map Prod.fst).Nodup := hperm.nodup_iff.mpr hnd
  have hne : (sortByKey l).Pairwise (fun u v => u.1 ≠ v.1) :=
    (List.pairwise_map).mp hnd2
  have := (sortByKey_pairwise l).and hne
  exact this.imp (fun h => keyLt_of_not_of_ne _ _ h.1 h.2)

theorem sortByKey_eq_of_perm {α : Type} (l1 l2 : List (Coord × α))
    (h : List.Perm l1 l2) (hnd : (l1.map Prod.fst).Nodup) :
    sortByKey l1 = sortByKey l2 := by
  haveI : IsAntisymm (Coord × α) (fun u v => keyLt u.1 v.1) :=
    ⟨fun a b h1 h2 => absurd h1 (fun hc => keyLt_asymm _ _ hc h2)⟩
  have hnd2 : (l2.map Prod.fst).Nodup := (h.map Prod.fst).nodup_iff.mp hnd
  exact List.eq_of_perm_of_sorted
    (((sortByKey_perm l1).trans h).trans (sortByKey_perm l2).symm)
    (sortByKey_strict l1 hnd) (sortByKey_strict l2 hnd2)

theorem foldl_min_le_init (a : Int) (l : List Int) : l.foldl min a ≤ a := by
  induction l generalizing a with
  | nil => simp
  | cons b rest ih =>
    simp only [List.foldl_cons]
    exact le_trans (ih (min a b)) (min_le_left a b)

theorem foldl_min_le_mem (a x : Int) (l : List Int) (hx : x ∈ l) :
    l.foldl min a ≤ x := by
  induction l generalizing a with
  | nil => simp at hx
  | cons b rest ih =>
    simp only [List.foldl_cons]
    rcases List.mem_cons.mp hx with rfl | hx2
    · exact le_trans (foldl_min_le_init _ _) (min_le_right a x)
    · exact ih (min a b) hx2

theorem foldl_min_mem (a : Int) (l : List Int) :
    l.foldl min a = a ∨ l.foldl min a ∈ l := by
  induction l generalizing a with
  | nil => simp
  | cons b rest ih =>
    simp only [List.foldl_cons]
    rcases ih (min a b) with h | h
    · rcases min_cases a b with ⟨hm, _⟩ | ⟨hm, _⟩
      · left; rw [h, hm]
      · right; rw [h, hm]; exact List.mem_cons_self b rest
    · right; exact List.mem_cons_of_mem b h

theorem minList_mem (l : List Int) (hne : l ≠ []) : minList l ∈ l := by
  cases l with
  | nil => exact absurd rfl hne
  | cons a r =>
    show r.foldl min a ∈ a :: r
    rcases foldl_min_mem a r with h | h
    · rw [h]; exact List.mem_cons_self a r
    · exact List.mem_cons_of_mem a h

theorem minList_le (l : List Int) (x : Int) (hx : x ∈ l) : minList l ≤ x := by
  cases l with
  | nil => simp at hx
  | cons a r =>
    show r.foldl min a ≤ x
    rcases List.mem_cons.mp hx with rfl | h
    · exact foldl_min_le_init x r
    · exact foldl_min_le_mem a x r h

theorem minList_perm (l1 l2 : List Int) (h : List.Perm l1 l2) (hne : l1 ≠ []) :
    minList l1 = minList l2 := by
  have hne2 : l2 ≠ [] := by
    intro hc
    subst hc
    exact hne h.eq_nil
  exact le_antisymm
    (minList_le l1 (minList l2) (h.mem_iff.mpr (minList_mem l2 hne2)))
    (minList_le l2 (minList l1) (h.mem_iff.mp (minList_mem l1 hne)))

theorem foldl_max_ge_init (a : Int) (l : List Int) : a ≤ l.foldl max a := by
  induction l generalizing a with
  | nil => simp
  | cons b rest ih =>
    simp only [List.foldl_cons]
    exact le_trans (le_max_left a b) (ih (max a b))

theorem foldl_max_ge_mem (a x : Int) (l : List Int) (hx : x ∈ l) :
    x ≤ l.foldl max a := by
  induction l generalizing a with
  | nil => simp at hx
  | cons b rest ih =>
    simp only [List.foldl_cons]
    rcases List.mem_cons.mp hx with rfl | hx2
    · exact le_trans (le_max_right a x) (foldl_max_ge_init _ _)
    · exact ih (max a b) hx2

theorem foldl_max_mem (a : Int) (l : List Int) :
    l.foldl max a = a ∨ l.foldl max a ∈ l := by
  induction l generalizing a with
  | nil => simp
  | cons b rest ih =>
    simp only [List.foldl_cons]
    rcases ih (max a b) with h | h
    · rcases max_cases a b with ⟨hm, _⟩ | ⟨hm, _⟩
      · left; rw [h, hm]
      · right; rw [h, hm]; exact List.mem_cons_self b rest
    · right; exact List.mem_cons_of_mem b h

theorem maxList_mem (l : List Int) (hne : l ≠ []) : maxList l ∈ l := by
  cases l with
  | nil => exact absurd rfl hne
  | cons a r =>
    show r.foldl max a ∈ a :: r
    rcases foldl_max_mem a r with h | h
    · rw [h]; exact List.mem_cons_self a r
    · exact List.mem_cons_of_mem a h

theorem maxList_ge (l : List Int) (x : Int) (hx : x ∈ l) : x ≤ maxList l := by
  cases l with
  | nil => simp at hx
  | cons a r =>
    show x ≤ r.foldl max a
    rcases List.mem_cons.mp hx with rfl | h
    · exact foldl_max_ge_init x r
    · exact foldl_max_ge_mem a x r h

theorem maxList_perm (l1 l2 : List Int) (h : List.Perm l1 l2) (hne : l1 ≠ []) :
    maxList l1 = maxList l2 := by
  have hne2 : l2 ≠ [] := by
    intro hc
    subst hc
    exact hne h.eq_nil
  exact le_antisymm
    (maxList_ge l2 (maxList l1) (h.mem_iff.mp (maxList_mem l1 hne)))
    (maxList_ge l1 (maxList l2) (h.mem_iff.mpr (maxList_mem l2 hne2)))

theorem headerLines_perm (t1 t2 : List (Coord × Tile))
    (atlas : Option (List Char)) (h : List.Perm t1 t2) (hne : t1 ≠ []) :
    headerLines t1 atlas = headerLines t2 atlas := by
  have hx : List.Perm ((t1.map Prod.fst).map Prod.fst)
      ((t2.map Prod.fst).map Prod.fst) := (h.map _).map _
  have hy : List.Perm ((t1.map Prod.fst).map Prod.snd)
      ((t2.map Prod.fst).map Prod.snd) := (h.map _).map _
  have hnex : (t1.map Prod.fst).map Prod.fst ≠ [] := by simp [hne]
  have hney : (t1.map Prod.fst).map Prod.snd ≠ [] := by simp [hne]
  simp only [headerLines]
  rw [minList_perm _ _ hx hnex, maxList_perm _ _ hx hnex,
    minList_perm _ _ hy hney, maxList_perm _ _ hy hney]

theorem tileLines_perm (t1 t2 : List (Coord × Tile)) (h : List.Perm t1 t2)
    (hnd : (t1.map Prod.fst).Nodup) : tileLines t1 = tileLines t2 := by
  unfold tileLines
  rw [sortByKey_eq_of_perm t1 t2 h hnd]

theorem examineLines_perm (t1 t2 : List (Coord × Tile)) (h : List.Perm t1 t2)
    (hnd : (t1.map Prod.fst).Nodup) : examineLines t1 = examineLines t2 := by
  have hf : List.Perm (t1.filter (fun p => p.2.examine_text.isSome))
      (t2.filter (fun p => p.2.examine_text.isSome)) := h.filter _
  have hndf : ((t1.filter (fun p => p.2.examine_text.isSome)).map
      Prod.fst).Nodup :=
    List.Nodup.sublist ((t1.filter_sublist).map Prod.fst) hnd
  have he : (t1.filter (fun p => p.2.examine_text.isSome)).isEmpty =
      (t2.filter (fun p => p.2.examine_text.isSome)).isEmpty := by
    cases hc1 : t1.filter (fun p => p.2.examine_text.isSome) with
    | nil =>
      rw [hc1] at hf
      rw [← hf.nil_eq]
    | cons a r =>
      rw [hc1] at hf
      cases hc2 : t2.filter (fun p => p.2.examine_text.isSome) with
      | nil =>
        rw [hc2] at hf
        exact absurd hf.eq_nil (by simp)
      | cons b r2 => rfl
  simp only [examineLines]
  rw [he, sortByKey_eq_of_perm _ _ hf hndf]

theorem spawnLines_perm (s1 s2 : List (Coord × MonsterSpawn))
    (h : List.Perm s1 s2) (hnd : (s1.map Prod.fst).Nodup) :
    spawnLines s1 = spawnLines s2 := by
  have he : s1.isEmpty = s2.isEmpty := by
    cases s1 with
    | nil => rw [← h.nil_eq]
    | cons a r =>
      cases s2 with
      | nil => exact absurd h.eq_nil (by simp)
      | cons b r2 => rfl
  simp only [spawnLines]
  rw [he, sortByKey_eq_of_perm _ _ h hnd]

theorem parse_tile_line_cases (line : List Char) (n : Nat) (valid : List Int)
    (tiles : List (Coord × Tile)) :
    (parse_tile_line line n valid tiles).2 = [] ∨
    ∃ m, parse_tile_line line n valid tiles = (tiles, [⟨n, m⟩]) := by
  unfold parse_tile_line
  split
  · split
    · split
      · left; rfl
      · right; exact ⟨_, rfl⟩
    · right; exact ⟨_, rfl⟩
  · right; exact ⟨_, rfl⟩

theorem parse_examine_line_cases (line : List Char) (n : Nat)
    (tiles : List (Coord × Tile)) :
    (parse_examine_line line n tiles).2 = [] ∨
    ∃ m, parse_examine_line line n tiles = (tiles, [⟨n, m⟩]) := by
  unfold parse_examine_line
  split
  · split
    · split
      · left; rfl
      · right; exact ⟨_, rfl⟩
    · right; exact ⟨_, rfl⟩
  · right; exact ⟨_, rfl⟩

theorem parse_spawn_line_cases (line : List Char) (n : Nat)
    (spawns : List (Coord × MonsterSpawn)) :
    (parse_spawn_line line n spawns).2 = [] ∨
    ∃ m, parse_spawn_line line n spawns = (spawns, [⟨n, m⟩]) := by
  unfold parse_spawn_line
  split
  · split
    · split
      · right; exact ⟨_, rfl⟩
      · left; rfl
    · right; exact ⟨_, rfl⟩
  · right; exact ⟨_, rfl⟩

/-! ### Characters and rendered integers -/

theorem digitChar_isDigit (d : Nat) : (digitChar d).isDigit = true := by
  match d with
  | 0 => decide
  | 1 => decide
  | 2 => decide
  | 3 => decide
  | 4 => decide
  | 5 => decide
  | 6 => decide
  | 7 => decide
  | 8 => decide
  | n + 9 => rfl

theorem digitVal_digitChar (d : Nat) (h : d < 10) :
    digitVal (digitChar d) = d := by
  match d with
  | 0 => decide
  | 1 => decide
  | 2 => decide
  | 3 => decide
  | 4 => decide
  | 5 => decide
  | 6 => decide
  | 7 => decide
  | 8 => decide
  | 9 => decide
  | n + 10 => omega

theorem isDigit_not_space (c : Char) (h : c.isDigit = true) :
    isPySpace c = false := by
  by_contra hc
  rw [Bool.not_eq_false] at hc
  simp only [isPySpace, Bool.or_eq_true, decide_eq_true_eq] at hc
  rcases hc with ((((rfl | rfl) | rfl) | rfl) | rfl) | rfl <;> simp_all

theorem isDigit_ne (c : Char) (h : c.isDigit = true) :
    c ≠ '-' ∧ c ≠ '#' ∧ c ≠ '\t' ∧ c ≠ '\n' ∧ c ≠ '\r' ∧ c ≠ '_' ∧
      c ≠ '+' := by
  refine ⟨?_, ?_, ?_, ?_, ?_, ?_, ?_⟩ <;> (intro hc; subst hc; simp_all)

theorem natDigitsAux_digits (fuel n : Nat) (c : Char)
    (hc : c ∈ natDigitsAux fuel n) : c.isDigit = true := by
  induction fuel generalizing n with
  | zero => simp [natDigitsAux] at hc
  | succ fuel ih =>
    cases n with
    | zero => simp [natDigitsAux] at hc
    | succ m =>
      rcases List.mem_cons.mp hc with rfl | h2
      · exact digitChar_isDigit _
      · exact ih _ h2

theorem natStr_digits (n : Nat) (c : Char) (hc : c ∈ natStr n) :
    c.isDigit = true := by
  unfold natStr at hc
  split at hc
  · rcases List.mem_cons.mp hc with rfl | h2
    · decide
    · simp at h2
  · exact natDigitsAux_digits n n c (List.mem_reverse.mp hc)

theorem natStr_ne_nil (n : Nat) : natStr n ≠ [] := by
  unfold natStr
  split
  · simp
  · rename_i hn
    cases n with
    | zero => exact absurd rfl hn
    | succ m => simp [natDigitsAux]

theorem natStr_head_digit (n : Nat) :
    ∃ c r, natStr n = c :: r ∧ c.isDigit = true := by
  cases hn : natStr n with
  | nil => exact absurd hn (natStr_ne_nil n)
  | cons c r =>
    exact ⟨c, r, rfl, natStr_digits n c (by rw [hn]; exact List.mem_cons_self c r)⟩

theorem intStr_chars (n : Int) (c : Char) (hc : c ∈ intStr n) :
    c.isDigit = true ∨ c = '-' := by
  unfold intStr at hc
  split at hc
  · rcases List.mem_cons.mp hc with rfl | h2
    · right; rfl
    · left; exact natStr_digits _ c h2
  · left; exact natStr_digits _ c hc

theorem intStr_not_space (n : Int) (c : Char) (hc : c ∈ intStr n) :
    isPySpace c = false := by
  rcases intStr_chars n c hc with h | rfl
  · exact isDigit_not_space c h
  · decide

theorem intStr_no_tab (n : Int) (c : Char) (hc : c ∈ intStr n) : c ≠ '\t' := by
  rcases intStr_chars n c hc with h | rfl
  · exact (isDigit_ne c h).2.2.1
  · decide

theorem intStr_clean (n : Int) (c : Char) (hc : c ∈ intStr n) :
    c ≠ '\n' ∧ c ≠ '\r' := by
  rcases intStr_chars n c hc with h | rfl
  · exact ⟨(isDigit_ne c h).2.2.2.1, (isDigit_ne c h).2.2.2.2.1⟩
  · exact ⟨by decide, by decide⟩

theorem startsDashes_intStr (x : Int) (rest : List Char) :
    startsDashes (intStr x ++ rest) = false := by
  obtain ⟨c, r, hn, hd⟩ := natStr_head_digit x.natAbs
  have hcd : c ≠ '-' := (isDigit_ne c hd).1
  unfold intStr
  split
  · rw [hn, show ('-' :: c :: r) ++ rest = '-' :: c :: (r ++ rest) from rfl]
    unfold startsDashes
    apply decide_eq_false
    intro h
    rw [show (3 : Nat) = 2 + 1 from rfl, List.take_succ_cons,
      show (2 : Nat) = 1 + 1 from rfl, List.take_succ_cons] at h
    injection h with h1 h2
    injection h2 with h3 h4
    exact hcd h3
  · rw [hn, show (c :: r) ++ rest = c :: (r ++ rest) from rfl]
    unfold startsDashes
    apply decide_eq_false
    intro h
    rw [show (3 : Nat) = 2 + 1 from rfl, List.take_succ_cons] at h
    injection h with h1 h2
    exact hcd h1

/-! ### Stripping and splitting -/

theorem dropWhile_append_singleton (p : Char → Bool) (xs : List Char) (c : Char)
    (hc : p c = false) :
    (xs ++ [c]).dropWhile p = xs.dropWhile p ++ [c] := by
  induction xs with
  | nil => simp [List.dropWhile, hc]
  | cons x r ih =>
    by_cases hx : p x
    · simp [List.dropWhile, hx, ih]
    · simp [List.dropWhile, hx]

theorem rstripWs_cons (c : Char) (l : List Char) (h : isPySpace c = false) :
    rstripWs (c :: l) = c :: rstripWs l := by
  unfold rstripWs
  rw [show (c :: l).reverse = l.reverse ++ [c] by simp,
    dropWhile_append_singleton _ _ _ h]
  simp

theorem pystrip_cons (c : Char) (l : List Char) (h : isPySpace c = false) :
    pystrip (c :: l) = c :: rstripWs l := by
  unfold pystrip lstripWs
  rw [List.dropWhile_cons_of_neg (by simp [h])]
  exact rstripWs_cons c l h

theorem dropWhile_eq_self_of (p : Char → Bool) (l : List Char)
    (h : ∀ c ∈ l, p c = false) : l.dropWhile p = l := by
  cases l with
  | nil => rfl
  | cons c r =>
    exact List.dropWhile_cons_of_neg
      (by simp [h c (List.mem_cons_self c r)])

theorem rstripWs_eq_self (l : List Char) (h : ∀ c ∈ l, isPySpace c = false) :
    rstripWs l = l := by
  unfold rstripWs
  rw [dropWhile_eq_self_of _ _ (fun c hc => h c (List.mem_reverse.mp hc))]
  simp

theorem pystrip_eq_self (l : List Char) (h : ∀ c ∈ l, isPySpace c = false) :
    pystrip l = l := by
  unfold pystrip
  rw [show lstripWs l = l from dropWhile_eq_self_of _ _ h]
  exact rstripWs_eq_self l h

theorem rstripChars_eq_self (cs l : List Char)
    (h : ∀ c ∈ l, (List.elem c cs) = false) : rstripChars cs l = l := by
  unfold rstripChars
  rw [dropWhile_eq_self_of _ _ ?h]
  · simp
  case h =>
    intro c hc
    simpa using h c (List.mem_reverse.mp hc)

theorem splitLim_ne_nil (sep : Char) (lim : Option Nat) (l : List Char) :
    splitLim sep lim l ≠ [] := by
  induction l generalizing lim with
  | nil => simp [splitLim]
  | cons c r ih =>
    rw [splitLim]
    split
    · simp
    · cases hs : splitLim sep lim r with
      | nil => exact absurd hs (ih lim)
      | cons h t => simp [hs, consHead]

theorem splitLim_no_sep (sep : Char) (lim : Option Nat) (l : List Char)
    (h : ∀ c ∈ l, c ≠ sep) : splitLim sep lim l = [l] := by
  induction l with
  | nil => rfl
  | cons c r ih =>
    rw [splitLim, if_neg]
    · rw [ih (fun d hd => h d (List.mem_cons_of_mem c hd))]
      rfl
    · intro hc
      exact h c (List.mem_cons_self c r) hc.1

theorem splitLim_append_none (sep : Char) (a b : List Char)
    (h : ∀ c ∈ a, c ≠ sep) :
    splitLim sep none (a ++ sep :: b) = a :: splitLim sep none b := by
  induction a with
  | nil =>
    rw [List.nil_append, splitLim, if_pos ⟨rfl, by simp⟩]
    rfl
  | cons c r ih =>
    rw [List.cons_append, splitLim, if_neg]
    · rw [ih (fun d hd => h d (List.mem_cons_of_mem c hd))]
      rfl
    · intro hc
      exact h c (List.mem_cons_self c r) hc.1

theorem splitLim_some_zero (sep : Char) (l : List Char) :
    splitLim sep (some 0) l = [l] := by
  induction l with
  | nil => rfl
  | cons c r ih =>
    rw [splitLim, if_neg (by simp), ih]
    rfl

theorem splitLim_append_some (sep : Char) (k : Nat) (a b : List Char)
    (h : ∀ c ∈ a, c ≠ sep) :
    splitLim sep (some (k + 1)) (a ++ sep :: b) =
      a :: splitLim sep (some k) b := by
  induction a with
  | nil =>
    rw [List.nil_append, splitLim, if_pos ⟨rfl, by simp⟩]
    rfl
  | cons c r ih =>
    rw [List.cons_append, splitLim, if_neg]
    · rw [ih (fun d hd => h d (List.mem_cons_of_mem c hd))]
      rfl
    · intro hc
      exact h c (List.mem_cons_self c r) hc.1

theorem splitLim_chars_subset (sep : Char) (lim : Option Nat) (l : List Char)
    (piece : List Char) (hp : piece ∈ splitLim sep lim l) (c : Char)
    (hc : c ∈ piece) : c ∈ l := by
  induction l generalizing lim piece with
  | nil =>
    rw [splitLim] at hp
    rcases List.mem_cons.mp hp with rfl | h2
    · exact absurd hc (by simp)
    · simp at h2
  | cons d r ih =>
    rw [splitLim] at hp
    split at hp
    · rcases List.mem_cons.mp hp with rfl | h2
      · exact absurd hc (by simp)
      · exact List.mem_cons_of_mem d (ih _ _ h2 hc)
    · cases hs : splitLim sep lim r with
      | nil => exact absurd hs (splitLim_ne_nil sep lim r)
      | cons p t =>
        rw [hs] at hp
        rcases List.mem_cons.mp hp with rfl | h2
        · rcases List.mem_cons.mp hc with rfl | h3
          · exact List.mem_cons_self c r
          · exact List.mem_cons_of_mem d
              (ih lim p (by rw [hs]; exact List.mem_cons_self p t) h3)
        · exact List.mem_cons_of_mem d
            (ih lim piece (by rw [hs]; exact List.mem_cons_of_mem p h2) hc)

/-! ### Integer rendering round-trips through parsing -/

theorem digitsVal_append_singleton (l : List Char) (c : Char) :
    digitsVal (l ++ [c]) = 10 * digitsVal l + digitVal c := by
  unfold digitsVal
  rw [List.foldl_append]
  rfl

theorem digitsVal_natDigitsAux (fuel n : Nat) (h : n ≤ fuel) :
    digitsVal ((natDigitsAux fuel n).reverse) = n := by
  induction fuel generalizing n with
  | zero =>
    have : n = 0 := by omega
    subst this
    rfl
  | succ fuel ih =>
    cases n with
    | zero => rfl
    | succ m =>
      rw [natDigitsAux, List.reverse_cons, digitsVal_append_singleton,
        ih ((m + 1) / 10) (by omega),
        digitVal_digitChar ((m + 1) % 10) (by omega)]
      omega

theorem digitsVal_natStr (n : Nat) : digitsVal (natStr n) = n := by
  unfold natStr
  split
  · rename_i h
    subst h
    rfl
  · exact digitsVal_natDigitsAux n n le_rfl

theorem pyParseNat_natStr (n : Nat) : pyParseNat (natStr n) = some n := by
  have hds : ∀ c ∈ natStr n, c ≠ '_' :=
    fun c hc => (isDigit_ne c (natStr_digits n c hc)).2.2.2.2.2.1
  have hchunks : intChunksOk (natStr n) = true := by
    unfold intChunksOk
    rw [splitLim_no_sep '_' none (natStr n) hds]
    simp [natStr_ne_nil n]
    intro c hc
    exact natStr_digits n c hc
  unfold pyParseNat
  rw [if_pos hchunks, List.filter_eq_self.mpr (by
    intro c hc
    simpa using hds c hc)]
  rw [digitsVal_natStr]

theorem pystrip_intStr (n : Int) : pystrip (intStr n) = intStr n :=
  pystrip_eq_self _ (intStr_not_space n)

theorem pyParseInt_intStr (n : Int) : pyParseInt (intStr n) = some n := by
  unfold pyParseInt
  rw [pystrip_intStr]
  by_cases hneg : n < 0
  · rw [show intStr n = '-' :: natStr n.natAbs by unfold intStr; rw [if_pos hneg]]
    rw [if_pos (by simp), show ('-' :: natStr n.natAbs).tail = natStr n.natAbs
      from rfl, pyParseNat_natStr]
    simp only [Option.map_some']
    congr 1
    have := Int.ofNat_natAbs_of_nonpos (le_of_lt hneg)
    omega
  · obtain ⟨c, r, hn, hd⟩ := natStr_head_digit n.natAbs
    rw [show intStr n = natStr n.natAbs by unfold intStr; rw [if_neg hneg], hn]
    rw [if_neg (by simpa using (isDigit_ne c hd).1),
      if_neg (by simpa using (isDigit_ne c hd).2.2.2.2.2.2),
      ← hn, pyParseNat_natStr]
    simp only [Option.map_some']
    congr 1
    omega

/-! ### Line joining and re-splitting -/

theorem pyLinesAux_clean_append (l rest : List Char)
    (h : ∀ c ∈ l, c ≠ '\n' ∧ c ≠ '\r') :
    pyLinesAux (l ++ '\n' :: rest) false = l :: pyLinesAux rest false := by
  induction l with
  | nil => rfl
  | cons c r ih =>
    have hc := h c (List.mem_cons_self c r)
    rw [List.cons_append, pyLinesAux, if_neg (by simp [hc.1]),
      if_neg (by simp [hc.2]),
      ih (fun d hd => h d (List.mem_cons_of_mem c hd))]
    rfl

theorem joinLines_cons (l : List Char) (ls : List (List Char)) :
    joinLines (l :: ls) = l ++ '\n' :: joinLines ls := rfl

theorem pyLines_joinLines (ls : List (List Char))
    (h : ∀ l ∈ ls, ∀ c ∈ l, c ≠ '\n' ∧ c ≠ '\r') :
    pyLines (joinLines ls) = ls := by
  induction ls with
  | nil => rfl
  | cons l rest ih =>
    rw [joinLines_cons]
    show pyLinesAux (l ++ '\n' :: joinLines rest) false = l :: rest
    rw [pyLinesAux_clean_append _ _ (h l (List.mem_cons_self l rest))]
    rw [show pyLinesAux (joinLines rest) false = pyLines (joinLines rest)
      from rfl, ih (fun m hm => h m (List.mem_cons_of_mem l hm))]

/-! ### Dict folding -/

theorem upsert_of_not_mem {κ α : Type} [DecidableEq κ] (k : κ) (v : α)
    (l : List (κ × α)) (h : k ∉ l.map Prod.fst) :
    upsert k v l = l ++ [(k, v)] := by
  induction l with
  | nil => rfl
  | cons p rest ih =>
    obtain ⟨k2, v2⟩ := p
    rw [upsert, if_neg (by simp at h; exact fun hc => absurd hc.symm h.1)]
    rw [ih (by simp at h ⊢; exact h.2)]
    rfl

theorem foldl_upsert_general {γ δ : Type} (g : γ → δ) (l : List (Coord × γ))
    (acc0 : List (Coord × δ))
    (hdisj : ∀ p ∈ l, (p : Coord × γ).1 ∉ acc0.map Prod.fst)
    (hnd : l.Pairwise (fun u v => u.1 ≠ v.1)) :
    l.foldl (fun acc p => upsert p.1 (g p.2) acc) acc0 =
      acc0 ++ l.map (fun p => (p.1, g p.2)) := by
  induction l generalizing acc0 with
  | nil => simp
  | cons p rest ih =>
    rcases List.pairwise_cons.mp hnd with ⟨hp, hrest⟩
    rw [List.foldl_cons,
      upsert_of_not_mem _ _ _ (hdisj p (List.mem_cons_self p rest)),
      ih (acc0 ++ [(p.1, g p.2)]) ?disj hrest]
    · simp
    case disj =>
      intro q hq
      simp only [List.map_append, List.mem_append]
      rintro (hin | hin)
      · exact hdisj q (List.mem_cons_of_mem p hq) hin
      · simp at hin
        exact hp q hq hin.symm

theorem alookup_isSome_iff {κ α : Type} [DecidableEq κ] (k : κ)
    (l : List (κ × α)) : (alookup k l).isSome = true ↔ k ∈ l.map Prod.fst := by
  induction l with
  | nil => simp [alookup]
  | cons p rest ih =>
    obtain ⟨k2, v2⟩ := p
    by_cases hk : k2 = k
    · subst hk
      simp [alookup]
    · rw [alookup, if_neg hk]
      simp only [List.map_cons, List.mem_cons]
      rw [ih]
      constructor
      · exact fun h => Or.inr h
      · rintro (rfl | h)
        · exact absurd rfl hk
        · exact h

theorem setExamine_keys (k : Coord) (e : Option (List Char))
    (l : List (Coord × Tile)) :
    (setExamine k e l).map Prod.fst = l.map Prod.fst := by
  induction l with
  | nil => rfl
  | cons p rest ih =>
    obtain ⟨k2, t⟩ := p
    rw [setExamine]
    split <;> simp [ih]

theorem foldl_setExamine_cons (E : List (Coord × Tile)) (k : Coord) (v : Tile)
    (acc : List (Coord × Tile)) (h : ∀ q ∈ E, (q : Coord × Tile).1 ≠ k) :
    E.foldl (fun acc p => setExamine p.1 p.2.examine_text acc) ((k, v) :: acc) =
      (k, v) :: E.foldl (fun acc p => setExamine p.1 p.2.examine_text acc) acc := by
  induction E generalizing acc with
  | nil => rfl
  | cons p rest ih =>
    rw [List.foldl_cons, List.foldl_cons, setExamine,
      if_neg (fun hc => h p (List.mem_cons_self p rest) hc.symm),
      ih _ (fun q hq => h q (List.mem_cons_of_mem p hq))]

theorem restore_examine (L : List (Coord × Tile))
    (hnd : L.Pairwise (fun u v => u.1 ≠ v.1)) :
    (L.filter (fun p => p.2.examine_text.isSome)).foldl
        (fun acc p => setExamine p.1 p.2.examine_text acc)
        (L.map (fun p => (p.1, Tile.mk p.2.sprite p.2.blocked none))) = L := by
  induction L with
  | nil => rfl
  | cons p rest ih =>
    rcases List.pairwise_cons.mp hnd with ⟨hp, hrest⟩
    have hkeys : ∀ q ∈ rest.filter (fun p => p.2.examine_text.isSome),
        (q : Coord × Tile).1 ≠ p.1 := by
      intro q hq
      exact fun hc => hp q (List.mem_of_mem_filter hq) hc.symm
    cases he : p.2.examine_text with
    | none =>
      rw [List.map_cons, List.filter_cons_of_neg (by simp [he]),
        foldl_setExamine_cons _ _ _ _ hkeys, ih hrest]
      have : Tile.mk p.2.sprite p.2.blocked none = p.2 := by
        rw [← he]
      rw [this]
    | some e =>
      rw [List.map_cons, List.filter_cons_of_pos (by simp [he]),
        List.foldl_cons, setExamine, if_pos rfl, he,
        foldl_setExamine_cons _ _ _ _ hkeys, ih hrest]
      have : Tile.mk p.2.sprite p.2.blocked (some e) = p.2 := by
        rw [← he]
      rw [this]

/-! ### Stepping the map parser over encoder-produced lines -/

theorem parseStep_dashes (valid : List Int) (st : ParseState) (n : Nat)
    (line : List Char)
    (hd : startsDashes (pystrip (rstripChars ['\n', '\r'] line)) = true) :
    parseStep valid st (n, line) =
      match st.current_section with
      | none => { st with current_section := some "tiles".data }
      | some _ =>
        let section_name :=
          pystrip ((pystrip (rstripChars ['\n', '\r'] line)).drop 3)
        { st with current_section := some (if section_name.isEmpty then "tiles".data else section_name) } := by
  have hs := startsDashes_not_blank _ hd
  simp only [parseStep]
  rw [if_neg hs, if_pos hd]

theorem startsDashes_cons_ne (c : Char) (l : List Char) (hc : c ≠ '-') :
    startsDashes (c :: l) = false := by
  unfold startsDashes
  apply decide_eq_false
  intro h
  rw [show (3 : Nat) = 2 + 1 from rfl, List.take_succ_cons] at h
  injection h with h1 h2
  exact hc h1

theorem rstripWs_append_nonws (a w : List Char)
    (h : ∀ c ∈ a, isPySpace c = false) :
    rstripWs (a ++ w) = a ++ rstripWs w := by
  induction a with
  | nil => rfl
  | cons c r ih =>
    rw [List.cons_append, rstripWs_cons c _ (h c (List.mem_cons_self c r)),
      ih (fun d hd => h d (List.mem_cons_of_mem c hd))]
    rfl

theorem pystrip_append_nonws (c : Char) (a w : List Char)
    (h : ∀ d ∈ c :: a, isPySpace d = false) :
    pystrip ((c :: a) ++ w) = (c :: a) ++ rstripWs w := by
  rw [List.cons_append, pystrip_cons c _ (h c (List.mem_cons_self c a)),
    rstripWs_append_nonws a w (fun d hd => h d (List.mem_cons_of_mem c hd))]
  rfl

theorem intStr_ne_nil (n : Int) : intStr n ≠ [] := by
  unfold intStr
  split
  · simp
  · exact natStr_ne_nil n.natAbs

theorem intStr_head (n : Int) :
    ∃ c r, intStr n = c :: r ∧ isPySpace c = false ∧ c ≠ '#' := by
  cases hn : intStr n with
  | nil => exact absurd hn (intStr_ne_nil n)
  | cons c r =>
    have hc : c ∈ intStr n := by rw [hn]; exact List.mem_cons_self c r
    rcases intStr_chars n c hc with h | rfl
    · exact ⟨c, r, rfl, isDigit_not_space c h, (isDigit_ne c h).2.1⟩
    · exact ⟨'-', r, rfl, by decide, by decide⟩

theorem pystrip_intStr_append (x : Int) (w : List Char) :
    pystrip (intStr x ++ w) = intStr x ++ rstripWs w := by
  obtain ⟨c, r, hn, _, _⟩ := intStr_head x
  rw [hn, pystrip_append_nonws c r w (by
    rw [← hn]
    exact intStr_not_space x)]

theorem not_blank_intStr_append (x : Int) (w : List Char) :
    ¬((intStr x ++ rstripWs w).isEmpty = true ∨
      (intStr x ++ rstripWs w).headD ' ' = '#') := by
  obtain ⟨c, r, hn, _, hch⟩ := intStr_head x
  rw [hn]
  simp [hch]

theorem parseStep_bare_dashes (valid : List Int) (st : ParseState) (n : Nat)
    (h : st.current_section = none) :
    parseStep valid st (n, "---".data) =
      { st with current_section := some "tiles".data } := by
  rw [parseStep_dashes valid st n _ (by decide), h]

theorem parseStep_delim_examine (valid : List Int) (st : ParseState) (n : Nat)
    (s : List Char) (h : st.current_section = some s) :
    parseStep valid st (n, "--- examine".data) =
      { st with current_section := some "examine".data } := by
  rw [parseStep_dashes valid st n _ (by decide), h]
  rfl

theorem parseStep_delim_spawns (valid : List Int) (st : ParseState) (n : Nat)
    (s : List Char) (h : st.current_section = some s) :
    parseStep valid st (n, "--- spawns".data) =
      { st with current_section := some "spawns".data } := by
  rw [parseStep_dashes valid st n _ (by decide), h]
  rfl

theorem parseStep_header_step (valid : List Int) (st : ParseState) (n : Nat)
    (c : Char) (lrest : List Char) (hsec : st.current_section = none)
    (hclean : ∀ d ∈ c :: lrest, d ≠ '\n' ∧ d ≠ '\r')
    (hcw : isPySpace c = false) (hc1 : c ≠ '#') (hc2 : c ≠ '-') :
    parseStep valid st (n, c :: lrest) =
      { st with header := parse_header_line (c :: rstripWs lrest) st.header } := by
  have hr : rstripChars ['\n', '\r'] (c :: lrest) = c :: lrest :=
    rstripChars_eq_self _ _ (fun d hd => by
      have := hclean d hd
      simp [this.1, this.2])
  simp only [parseStep, hr]
  rw [pystrip_cons c _ hcw]
  rw [if_neg (by simp [hc1]),
    if_neg (by simp [startsDashes_cons_ne c (rstripWs lrest) hc2]), hsec]

theorem serialize_tile_shape (x y : Int) (t : Tile) :
    serialize_tile x y t =
      intStr x ++ '\t' :: (intStr y ++ '\t' :: (intStr t.sprite ++ '\t' ::
        (if t.blocked then ['1'] else ['0']))) := by
  unfold serialize_tile
  simp [List.append_assoc, List.cons_append]

theorem splitTab_serialize (x y : Int) (t : Tile) :
    splitLim '\t' none (serialize_tile x y t) =
      [intStr x, intStr y, intStr t.sprite,
        if t.blocked then ['1'] else ['0']] := by
  rw [serialize_tile_shape]
  rw [splitLim_append_none '\t' _ _ (intStr_no_tab x),
    splitLim_append_none '\t' _ _ (intStr_no_tab y),
    splitLim_append_none '\t' _ _ (intStr_no_tab t.sprite),
    splitLim_no_sep '\t' none _ (by cases t.blocked <;> simp)]

theorem parse_tile_line_serialize (x y : Int) (t : Tile) (n : Nat)
    (valid : List Int) (tiles : List (Coord × Tile)) (hs : t.sprite ∈ valid) :
    parse_tile_line (serialize_tile x y t) n valid tiles =
      (upsert (x, y) ⟨t.sprite, t.blocked, none⟩ tiles, []) := by
  unfold parse_tile_line
  rw [splitTab_serialize]
  cases hb : t.blocked <;>
    simp [pyParseInt_intStr, hs, show pyParseInt ['0'] = some 0 from rfl,
      show pyParseInt ['1'] = some 1 from rfl]

theorem serialize_tile_clean (x y : Int) (t : Tile) (d : Char)
    (hd : d ∈ serialize_tile x y t) : d ≠ '\n' ∧ d ≠ '\r' := by
  rw [serialize_tile_shape,
    show (if t.blocked then ['1'] else ['0']) =
      [if t.blocked then '1' else '0'] by cases t.blocked <;> rfl] at hd
  simp only [List.mem_append, List.mem_cons, List.not_mem_nil, or_false] at hd
  rcases hd with h | rfl | h | rfl | h | rfl | rfl
  · exact intStr_clean x d h
  · exact ⟨by decide, by decide⟩
  · exact intStr_clean y d h
  · exact ⟨by decide, by decide⟩
  · exact intStr_clean t.sprite d h
  · exact ⟨by decide, by decide⟩
  · cases t.blocked <;> exact ⟨by decide, by decide⟩

theorem parseStep_tile_line (valid : List Int) (st : ParseState) (n : Nat)
    (x y : Int) (t : Tile) (hsec : st.current_section = some "tiles".data)
    (hs : t.sprite ∈ valid) :
    parseStep valid st (n, serialize_tile x y t) =
      { st with tiles := upsert (x, y) ⟨t.sprite, t.blocked, none⟩ st.tiles } := by
  have hr : rstripChars ['\n', '\r'] (serialize_tile x y t) =
      serialize_tile x y t :=
    rstripChars_eq_self _ _ (fun d hd => by
      have := serialize_tile_clean x y t d hd
      simp [this.1, this.2])
  simp only [parseStep, hr]
  rw [serialize_tile_shape, pystrip_intStr_append]
  rw [if_neg (not_blank_intStr_append x _),
    if_neg (by simp [startsDashes_intStr x _]), hsec]
  simp only [if_pos rfl]
  rw [← serialize_tile_shape, parse_tile_line_serialize x y t n valid st.tiles hs]
  simp

theorem splitTab2_examine (x y : Int) (e : List Char) :
    splitLim '\t' (some 2) (intStr x ++ '\t' :: (intStr y ++ '\t' :: e)) =
      [intStr x, intStr y, e] := by
  rw [show (2 : Nat) = 1 + 1 from rfl,
    splitLim_append_some '\t' 1 _ _ (intStr_no_tab x),
    show (1 : Nat) = 0 + 1 from rfl,
    splitLim_append_some '\t' 0 _ _ (intStr_no_tab y), splitLim_some_zero]

theorem parse_examine_line_enc (x y : Int) (e : List Char) (n : Nat)
    (tiles : List (Coord × Tile)) (he : e ≠ [])
    (hmem : (x, y) ∈ tiles.map Prod.fst) :
    parse_examine_line (intStr x ++ '\t' :: (intStr y ++ '\t' :: e)) n tiles =
      (setExamine (x, y) (some e) tiles, []) := by
  unfold parse_examine_line
  rw [splitTab2_examine]
  simp [pyParseInt_intStr, (alookup_isSome_iff (x, y) tiles).mpr hmem, he]

theorem parseStep_examine_line (valid : List Int) (st : ParseState) (n : Nat)
    (x y : Int) (e : List Char)
    (hsec : st.current_section = some "examine".data) (he : e ≠ [])
    (hclean : ∀ d ∈ e, d ≠ '\n' ∧ d ≠ '\r')
    (hmem : (x, y) ∈ st.tiles.map Prod.fst) :
    parseStep valid st (n, intStr x ++ '\t' :: (intStr y ++ '\t' :: e)) =
      { st with tiles := setExamine (x, y) (some e) st.tiles } := by
  have hlineclean : ∀ d ∈ intStr x ++ '\t' :: (intStr y ++ '\t' :: e),
      d ≠ '\n' ∧ d ≠ '\r' := by
    intro d hd
    simp only [List.mem_append, List.mem_cons] at hd
    rcases hd with h | rfl | h | rfl | h
    · exact intStr_clean x d h
    · exact ⟨by decide, by decide⟩
    · exact intStr_clean y d h
    · exact ⟨by decide, by decide⟩
    · exact hclean d h
  have hr := rstripChars_eq_self ['\n', '\r'] _ (fun d hd => by
    have := hlineclean d hd
    simp [this.1, this.2])
  simp only [parseStep, hr]
  rw [pystrip_intStr_append]
  rw [if_neg (not_blank_intStr_append x _),
    if_neg (by simp [startsDashes_intStr x _]), hsec]
  simp only [show ¬("examine".data = "tiles".data) from by decide,
    if_false, if_pos rfl, ite_false]
  rw [parse_examine_line_enc x y e n st.tiles he hmem]
  simp

theorem splitTab_spawn (x y ticks : Int) (name : List Char)
    (hname : ∀ c ∈ name, c ≠ '\t') :
    splitLim '\t' none
        (intStr x ++ '\t' :: (intStr y ++ '\t' :: (name ++ '\t' :: intStr ticks))) =
      [intStr x, intStr y, name, intStr ticks] := by
  rw [splitLim_append_none '\t' _ _ (intStr_no_tab x),
    splitLim_append_none '\t' _ _ (intStr_no_tab y),
    splitLim_append_none '\t' _ _ hname,
    splitLim_no_sep '\t' none _ (intStr_no_tab ticks)]

theorem parse_spawn_line_enc (x y ticks : Int) (name : List Char) (n : Nat)
    (spawns : List (Coord × MonsterSpawn)) (hne : name ≠ [])
    (htab : ∀ c ∈ name, c ≠ '\t') :
    parse_spawn_line
        (intStr x ++ '\t' :: (intStr y ++ '\t' :: (name ++ '\t' :: intStr ticks)))
        n spawns =
      (upsert (x, y) ⟨name, ticks⟩ spawns, []) := by
  unfold parse_spawn_line
  rw [splitTab_spawn x y ticks name htab]
  simp [pyParseInt_intStr, hne]

theorem parseStep_spawn_line (valid : List Int) (st : ParseState) (n : Nat)
    (x y ticks : Int) (name : List Char)
    (hsec : st.current_section = some "spawns".data) (hne : name ≠ [])
    (htab : ∀ c ∈ name, c ≠ '\t')
    (hclean : ∀ d ∈ name, d ≠ '\n' ∧ d ≠ '\r') :
    parseStep valid st
        (n, intStr x ++ '\t' :: (intStr y ++ '\t' :: (name ++ '\t' :: intStr ticks))) =
      { st with spawns := upsert (x, y) ⟨name, ticks⟩ st.spawns } := by
  have hlineclean : ∀ d ∈ intStr x ++ '\t' :: (intStr y ++ '\t' ::
      (name ++ '\t' :: intStr ticks)), d ≠ '\n' ∧ d ≠ '\r' := by
    intro d hd
    simp only [List.mem_append, List.mem_cons] at hd
    rcases hd with h | rfl | h | rfl | h | rfl | h
    · exact intStr_clean x d h
    · exact ⟨by decide, by decide⟩
    · exact intStr_clean y d h
    · exact ⟨by decide, by decide⟩
    · exact hclean d h
    · exact ⟨by decide, by decide⟩
    · exact intStr_clean ticks d h
  have hr := rstripChars_eq_self ['\n', '\r'] _ (fun d hd => by
    have := hlineclean d hd
    simp [this.1, this.2])
  simp only [parseStep, hr]
  rw [pystrip_intStr_append]
  rw [if_neg (not_blank_intStr_append x _),
    if_neg (by simp [startsDashes_intStr x _]), hsec]
  simp only [show ¬("spawns".data = "tiles".data) from by decide,
    show ¬("spawns".data = "examine".data) from by decide,
    if_false, if_pos rfl, ite_false]
  rw [parse_spawn_line_enc x y ticks name n st.spawns hne htab]
  simp

theorem foldl_parseStep_append (valid : List Int) (st : ParseState) (n : Nat)
    (l1 l2 : List (List Char)) :
    (List.enumFrom n (l1 ++ l2)).foldl (parseStep valid) st =
      (List.enumFrom (n + l1.length) l2).foldl (parseStep valid)
        ((List.enumFrom n l1).foldl (parseStep valid) st) := by
  rw [List.enumFrom_append, List.foldl_append]

theorem getLastD_mem_of_ne_nil {α : Type} (l : List α) (d : α) (hne : l ≠ []) :
    l.getLastD d ∈ l := by
  induction l with
  | nil => exact absurd rfl hne
  | cons a r ih =>
    cases r with
    | nil => simp
    | cons b r2 =>
      rw [show (a :: b :: r2).getLastD d = (b :: r2).getLastD d by simp]
      exact List.mem_cons_of_mem a (ih (by simp))

theorem atlasName_clean (atlas : Option (List Char))
    (hatlas : ∀ p, atlas = some p → ∀ d ∈ p, d ≠ '\n' ∧ d ≠ '\r') :
    ∀ d ∈ atlasName atlas, d ≠ '\n' ∧ d ≠ '\r' := by
  have hunk : ∀ d ∈ "unknown".data, d ≠ '\n' ∧ d ≠ '\r' := by decide
  intro d hd
  cases atlas with
  | none => exact hunk d hd
  | some p =>
    rw [atlasName] at hd
    split at hd
    · exact hunk d hd
    · have hmem : basename p ∈ splitLim '/' none p :=
        getLastD_mem_of_ne_nil _ _ (splitLim_ne_nil '/' none p)
      exact hatlas p rfl d (splitLim_chars_subset '/' none p _ hmem d hd)

theorem run_header_block (valid : List Int) (st : ParseState) (n : Nat)
    (ls : List (List Char)) (hsec : st.current_section = none)
    (h : ∀ l ∈ ls, ∃ c r, l = c :: r ∧ isPySpace c = false ∧ c ≠ '#' ∧
      c ≠ '-' ∧ ∀ d ∈ l, d ≠ '\n' ∧ d ≠ '\r') :
    ∃ H, (List.enumFrom n ls).foldl (parseStep valid) st =
      { st with header := H } := by
  induction ls generalizing st n with
  | nil => exact ⟨st.header, rfl⟩
  | cons l ls ih =>
    obtain ⟨c, r, rfl, hcw, hc1, hc2, hclean⟩ := h _ (List.mem_cons_self l ls)
    rw [show List.enumFrom n ((c :: r) :: ls) =
      (n, c :: r) :: List.enumFrom (n + 1) ls from rfl, List.foldl_cons,
      parseStep_header_step valid st n c r hsec hclean hcw hc1 hc2]
    obtain ⟨H, hH⟩ := ih { st with
      header := parse_header_line (c :: rstripWs r) st.header } (n + 1)
      (by simp [hsec]) (fun m hm => h m (List.mem_cons_of_mem _ hm))
    exact ⟨H, hH⟩

theorem run_header_block_dashes (valid : List Int) (st : ParseState) (n : Nat)
    (ls : List (List Char)) (hsec : st.current_section = none)
    (h : ∀ l ∈ ls, ∃ c r, l = c :: r ∧ isPySpace c = false ∧ c ≠ '#' ∧
      c ≠ '-' ∧ ∀ d ∈ l, d ≠ '\n' ∧ d ≠ '\r') :
    ∃ H, (List.enumFrom n (ls ++ ["---".data])).foldl (parseStep valid) st =
      { st with current_section := some "tiles".data, header := H } := by
  rw [foldl_parseStep_append]
  obtain ⟨H, hH⟩ := run_header_block valid st n ls hsec h
  rw [hH, show List.enumFrom (n + ls.length) ["---".data] =
    [(n + ls.length, "---".data)] from rfl, List.foldl_cons,
    parseStep_bare_dashes valid _ _ (by simp [hsec])]
  exact ⟨H, rfl⟩

theorem run_headerLines (valid : List Int) (st : ParseState) (n : Nat)
    (tiles : List (Coord × Tile)) (atlas : Option (List Char))
    (hsec : st.current_section = none)
    (hatlas : ∀ p, atlas = some p → ∀ d ∈ p, d ≠ '\n' ∧ d ≠ '\r') :
    ∃ H, (List.enumFrom n (headerLines tiles atlas)).foldl (parseStep valid) st =
      { st with current_section := some "tiles".data, header := H } := by
  have hsplit : headerLines tiles atlas =
      ("name:Untitled".data ::
        ("width:".data ++ intStr (maxList ((tiles.map Prod.fst).map Prod.fst) -
            minList ((tiles.map Prod.fst).map Prod.fst) + 1)) ::
        ("height:".data ++ intStr (maxList ((tiles.map Prod.fst).map Prod.snd) -
            minList ((tiles.map Prod.fst).map Prod.snd) + 1)) ::
        ("origin:".data ++ intStr (minList ((tiles.map Prod.fst).map Prod.fst)) ++
            ',' :: intStr (minList ((tiles.map Prod.fst).map Prod.snd))) ::
        ("tileset:".data ++ atlasName atlas) :: []) ++ ["---".data] := rfl
  rw [hsplit]
  refine run_header_block_dashes valid st n _ hsec ?_
  intro l hl
  simp only [List.mem_cons, List.not_mem_nil, or_false] at hl
  rcases hl with rfl | rfl | rfl | rfl | rfl
  · exact ⟨'n', _, rfl, by decide, by decide, by decide, by decide⟩
  · refine ⟨'w', _, rfl, by decide, by decide, by decide, ?_⟩
    intro d hd
    rcases List.mem_append.mp hd with h | h
    · exact (by decide : ∀ x ∈ "width:".data, x ≠ '\n' ∧ x ≠ '\r') d h
    · exact intStr_clean _ d h
  · refine ⟨'h', _, rfl, by decide, by decide, by decide, ?_⟩
    intro d hd
    rcases List.mem_append.mp hd with h | h
    · exact (by decide : ∀ x ∈ "height:".data, x ≠ '\n' ∧ x ≠ '\r') d h
    · exact intStr_clean _ d h
  · refine ⟨'o', _, rfl, by decide, by decide, by decide, ?_⟩
    intro d hd
    rcases List.mem_append.mp hd with h | h
    · rcases List.mem_append.mp h with h2 | h2
      · exact (by decide : ∀ x ∈ "origin:".data, x ≠ '\n' ∧ x ≠ '\r') d h2
      · exact intStr_clean _ d h2
    · rcases List.mem_cons.mp h with rfl | h2
      · exact ⟨by decide, by decide⟩
      · exact intStr_clean _ d h2
  · refine ⟨'t', _, rfl, by decide, by decide, by decide, ?_⟩
    intro d hd
    rcases List.mem_append.mp hd with h | h
    · exact (by decide : ∀ x ∈ "tileset:".data, x ≠ '\n' ∧ x ≠ '\r') d h
    · exact atlasName_clean atlas hatlas d h

theorem run_tileLines (valid : List Int) (st : ParseState) (n : Nat)
    (entries : List (Coord × Tile))
    (hsec : st.current_section = some "tiles".data)
    (hs : ∀ p ∈ entries, (p : Coord × Tile).2.sprite ∈ valid) :
    (List.enumFrom n (entries.map (fun p => serialize_tile p.1.1 p.1.2 p.2))).foldl
        (parseStep valid) st =
      ⟨st.current_section, st.header,
        entries.foldl (fun acc p => upsert p.1 ⟨p.2.sprite, p.2.blocked, none⟩ acc) st.tiles,
        st.spawns, st.warnings⟩ := by
  induction entries generalizing st n with
  | nil => rfl
  | cons p rest ih =>
    rw [List.map_cons, show List.enumFrom n (serialize_tile p.1.1 p.1.2 p.2 ::
        rest.map (fun p => serialize_tile p.1.1 p.1.2 p.2)) =
      (n, serialize_tile p.1.1 p.1.2 p.2) :: List.enumFrom (n + 1)
        (rest.map (fun p => serialize_tile p.1.1 p.1.2 p.2)) from rfl,
      List.foldl_cons,
      parseStep_tile_line valid st n p.1.1 p.1.2 p.2 hsec
        (hs p (List.mem_cons_self p rest)),
      ih _ (n + 1) (by simp [hsec])
        (fun q hq => hs q (List.mem_cons_of_mem p hq))]
    rfl

theorem exline_shape (x y : Int) (e : List Char) :
    intStr x ++ '\t' :: intStr y ++ '\t' :: e =
      intStr x ++ '\t' :: (intStr y ++ '\t' :: e) := by
  simp [List.append_assoc]

theorem run_examineEntryLines (valid : List Int) (st : ParseState) (n : Nat)
    (entries : List (Coord × Tile))
    (hsec : st.current_section = some "examine".data)
    (hex : ∀ p ∈ entries, ∃ e, (p : Coord × Tile).2.examine_text = some e ∧
      e ≠ [] ∧ ∀ d ∈ e, d ≠ '\n' ∧ d ≠ '\r')
    (hmem : ∀ p ∈ entries, (p : Coord × Tile).1 ∈ st.tiles.map Prod.fst) :
    (List.enumFrom n (entries.map (fun p =>
        intStr p.1.1 ++ '\t' :: intStr p.1.2 ++ '\t' ::
          p.2.examine_text.getD []))).foldl (parseStep valid) st =
      ⟨st.current_section, st.header,
        entries.foldl (fun acc p => setExamine p.1 p.2.examine_text acc) st.tiles,
        st.spawns, st.warnings⟩ := by
  induction entries generalizing st n with
  | nil => rfl
  | cons p rest ih =>
    obtain ⟨e, he, hene, heclean⟩ := hex p (List.mem_cons_self p rest)
    rw [List.map_cons, show List.enumFrom n ((intStr p.1.1 ++ '\t' ::
        intStr p.1.2 ++ '\t' :: p.2.examine_text.getD []) ::
        rest.map (fun p => intStr p.1.1 ++ '\t' :: intStr p.1.2 ++ '\t' ::
          p.2.examine_text.getD [])) =
      (n, intStr p.1.1 ++ '\t' :: intStr p.1.2 ++ '\t' ::
        p.2.examine_text.getD []) :: List.enumFrom (n + 1)
        (rest.map (fun p => intStr p.1.1 ++ '\t' :: intStr p.1.2 ++ '\t' ::
          p.2.examine_text.getD [])) from rfl,
      List.foldl_cons, exline_shape, he, show (some e).getD [] = e from rfl,
      parseStep_examine_line valid st n p.1.1 p.1.2 e hsec hene heclean
        (hmem p (List.mem_cons_self p rest)),
      ih _ (n + 1) (by simp [hsec]) (fun q hq => hex q (List.mem_cons_of_mem p hq))
        (fun q hq => by
          simp only [setExamine_keys]
          exact hmem q (List.mem_cons_of_mem p hq))]
    rw [List.foldl_cons, he]

theorem spline_shape (x y : Int) (name : List Char) (ticks : Int) :
    intStr x ++ '\t' :: intStr y ++ '\t' :: name ++ '\t' :: intStr ticks =
      intStr x ++ '\t' :: (intStr y ++ '\t' :: (name ++ '\t' :: intStr ticks)) := by
  simp [List.append_assoc]

theorem run_spawnEntryLines (valid : List Int) (st : ParseState) (n : Nat)
    (entries : List (Coord × MonsterSpawn))
    (hsec : st.current_section = some "spawns".data)
    (hname : ∀ p ∈ entries, (p : Coord × MonsterSpawn).2.name ≠ [] ∧
      (∀ c ∈ p.2.name, c ≠ '\t') ∧ ∀ c ∈ p.2.name, c ≠ '\n' ∧ c ≠ '\r') :
    (List.enumFrom n (entries.map (fun p =>
        intStr p.1.1 ++ '\t' :: intStr p.1.2 ++ '\t' :: p.2.name ++ '\t' ::
          intStr p.2.respawn_ticks))).foldl (parseStep valid) st =
      ⟨st.current_section, st.header, st.tiles,
        entries.foldl (fun acc p => upsert p.1 ⟨p.2.name, p.2.respawn_ticks⟩ acc) st.spawns,
        st.warnings⟩ := by
  induction entries generalizing st n with
  | nil => rfl
  | cons p rest ih =>
    obtain ⟨hne, htab, hclean⟩ := hname p (List.mem_cons_self p rest)
    rw [List.map_cons, show List.enumFrom n ((intStr p.1.1 ++ '\t' ::
        intStr p.1.2 ++ '\t' :: p.2.name ++ '\t' :: intStr p.2.respawn_ticks) ::
        rest.map (fun p => intStr p.1.1 ++ '\t' :: intStr p.1.2 ++ '\t' ::
          p.2.name ++ '\t' :: intStr p.2.respawn_ticks)) =
      (n, intStr p.1.1 ++ '\t' :: intStr p.1.2 ++ '\t' :: p.2.name ++ '\t' ::
        intStr p.2.respawn_ticks) :: List.enumFrom (n + 1)
        (rest.map (fun p => intStr p.1.1 ++ '\t' :: intStr p.1.2 ++ '\t' ::
          p.2.name ++ '\t' :: intStr p.2.respawn_ticks)) from rfl,
      List.foldl_cons, spline_shape,
      parseStep_spawn_line valid st n p.1.1 p.1.2 p.2.respawn_ticks p.2.name
        hsec hne htab hclean,
      ih _ (n + 1) (by simp [hsec])
        (fun q hq => hname q (List.mem_cons_of_mem p hq))]
    rfl

theorem keyLt_ne {α : Type} (u v : Coord × α) (h : keyLt u.1 v.1) : u.1 ≠ v.1 :=
  fun hc => keyLt_asymm u.1 v.1 h (hc ▸ h)

theorem eq_of_perm_of_keyLt {α : Type} (l1 l2 : List (Coord × α))
    (h : List.Perm l1 l2) (h1 : l1.Pairwise (fun u v => keyLt u.1 v.1))
    (h2 : l2.Pairwise (fun u v => keyLt u.1 v.1)) : l1 = l2 := by
  haveI : IsAntisymm (Coord × α) (fun u v => keyLt u.1 v.1) :=
    ⟨fun a b ha hb => absurd ha (fun hc => keyLt_asymm _ _ hc hb)⟩
  exact List.eq_of_perm_of_sorted h h1 h2

theorem sortFilter_eq (tiles : List (Coord × Tile))
    (hnd : (tiles.map Prod.fst).Nodup) :
    sortByKey (tiles.filter (fun p => p.2.examine_text.isSome)) =
      (sortByKey tiles).filter (fun p => p.2.examine_text.isSome) := by
  have hndf : ((tiles.filter (fun p => p.2.examine_text.isSome)).map
      Prod.fst).Nodup :=
    List.Nodup.sublist ((tiles.filter_sublist).map Prod.fst) hnd
  refine eq_of_perm_of_keyLt _ _ ?_ (sortByKey_strict _ hndf)
    ((sortByKey_strict tiles hnd).filter _)
  exact (sortByKey_perm _).trans ((sortByKey_perm tiles).symm.filter _).symm.symm

theorem map_eq_self_mem {β : Type} (l : List β) (f : β → β)
    (h : ∀ p ∈ l, f p = p) : l.map f = l := by
  induction l with
  | nil => rfl
  | cons p rest ih =>
    rw [List.map_cons, h p (List.mem_cons_self p rest),
      ih (fun q hq => h q (List.mem_cons_of_mem p hq))]

theorem map_fst_map_pair {γ δ : Type} (l : List (Coord × γ)) (g : γ → δ) :
    (l.map (fun p => (p.1, g p.2))).map Prod.fst = l.map Prod.fst := by
  rw [List.map_map]
  rfl

theorem headerLines_clean (tiles : List (Coord × Tile))
    (atlas : Option (List Char))
    (hatlas : ∀ p, atlas = some p → ∀ d ∈ p, d ≠ '\n' ∧ d ≠ '\r') :
    ∀ l ∈ headerLines tiles atlas, ∀ d ∈ l, d ≠ '\n' ∧ d ≠ '\r' := by
  intro l hl
  simp only [headerLines, List.mem_cons, List.not_mem_nil, or_false] at hl
  rcases hl with rfl | rfl | rfl | rfl | rfl | rfl
  · exact fun d hd => (by decide : ∀ x ∈ "name:Untitled".data,
      x ≠ '\n' ∧ x ≠ '\r') d hd
  · intro d hd
    rcases List.mem_append.mp hd with h | h
    · exact (by decide : ∀ x ∈ "width:".data, x ≠ '\n' ∧ x ≠ '\r') d h
    · exact intStr_clean _ d h
  · intro d hd
    rcases List.mem_append.mp hd with h | h
    · exact (by decide : ∀ x ∈ "height:".data, x ≠ '\n' ∧ x ≠ '\r') d h
    · exact intStr_clean _ d h
  · intro d hd
    rcases List.mem_append.mp hd with h | h
    · rcases List.mem_append.mp h with h2 | h2
      · exact (by decide : ∀ x ∈ "origin:".data, x ≠ '\n' ∧ x ≠ '\r') d h2
      · exact intStr_clean _ d h2
    · rcases List.mem_cons.mp h with rfl | h2
      · exact ⟨by decide, by decide⟩
      · exact intStr_clean _ d h2
  · intro d hd
    rcases List.mem_append.mp hd with h | h
    · exact (by decide : ∀ x ∈ "tileset:".data, x ≠ '\n' ∧ x ≠ '\r') d h
    · exact atlasName_clean atlas hatlas d h
  · exact fun d hd => (by decide : ∀ x ∈ "---".data, x ≠ '\n' ∧ x ≠ '\r') d hd

theorem tileLines_clean (tiles : List (Coord × Tile)) :
    ∀ l ∈ tileLines tiles, ∀ d ∈ l, d ≠ '\n' ∧ d ≠ '\r' := by
  intro l hl
  unfold tileLines at hl
  rcases List.mem_map.mp hl with ⟨p, _, rfl⟩
  exact serialize_tile_clean p.1.1 p.1.2 p.2

theorem examineLines_clean (tiles : List (Coord × Tile))
    (hex : ∀ p ∈ tiles, ∀ e, (p : Coord × Tile).2.examine_text = some e →
      e ≠ [] ∧ ∀ d ∈ e, d ≠ '\n' ∧ d ≠ '\r') :
    ∀ l ∈ examineLines tiles, ∀ d ∈ l, d ≠ '\n' ∧ d ≠ '\r' := by
  intro l hl
  simp only [examineLines] at hl
  split at hl
  · simp at hl
  · rcases List.mem_cons.mp hl with rfl | h2
    · exact fun d hd => (by decide : ∀ x ∈ "--- examine".data,
        x ≠ '\n' ∧ x ≠ '\r') d hd
    · rcases List.mem_map.mp h2 with ⟨p, hp, rfl⟩
      have hpair := List.mem_filter.mp ((sortByKey_perm _).mem_iff.mp hp)
      have hmem : p ∈ tiles := hpair.1
      have hsome : p.2.examine_text.isSome = true := hpair.2
      obtain ⟨e, he⟩ := Option.isSome_iff_exists.mp hsome
      have hclean := (hex p hmem e he).2
      intro d hd
      rw [exline_shape] at hd
      rcases List.mem_append.mp hd with h | h
      · exact intStr_clean _ d h
      · rcases List.mem_cons.mp h with rfl | h3
        · exact ⟨by decide, by decide⟩
        · rcases List.mem_append.mp h3 with h4 | h4
          · exact intStr_clean _ d h4
          · rcases List.mem_cons.mp h4 with rfl | h5
            · exact ⟨by decide, by decide⟩
            · rw [he] at h5
              exact hclean d h5

theorem spawnLines_clean (spawns : List (Coord × MonsterSpawn))
    (hsp : ∀ p ∈ spawns, (p : Coord × MonsterSpawn).2.name ≠ [] ∧
      (∀ ch ∈ p.2.name, ch ≠ '\t') ∧
      ∀ ch ∈ p.2.name, ch ≠ '\n' ∧ ch ≠ '\r') :
    ∀ l ∈ spawnLines spawns, ∀ d ∈ l, d ≠ '\n' ∧ d ≠ '\r' := by
  intro l hl
  unfold spawnLines at hl
  split at hl
  · simp at hl
  · rcases List.mem_cons.mp hl with rfl | h2
    · exact fun d hd => (by decide : ∀ x ∈ "--- spawns".data,
        x ≠ '\n' ∧ x ≠ '\r') d hd
    · rcases List.mem_map.mp h2 with ⟨p, hp, rfl⟩
      have hmem : p ∈ spawns := (sortByKey_perm _).mem_iff.mp hp
      have hclean := (hsp p hmem).2.2
      intro d hd
      rw [spline_shape] at hd
      rcases List.mem_append.mp hd with h | h
      · exact intStr_clean _ d h
      · rcases List.mem_cons.mp h with rfl | h3
        · exact ⟨by decide, by decide⟩
        · rcases List.mem_append.mp h3 with h4 | h4
          · exact intStr_clean _ d h4
          · rcases List.mem_cons.mp h4 with rfl | h5
            · exact ⟨by decide, by decide⟩
            · rcases List.mem_append.mp h5 with h6 | h6
              · exact hclean d h6
              · rcases List.mem_cons.mp h6 with rfl | h7
                · exact ⟨by decide, by decide⟩
                · exact intStr_clean _ d h7

theorem strip_eta (p : Coord × Tile) (he : p.2.examine_text = none) :
    ((p.1, Tile.mk p.2.sprite p.2.blocked none) : Coord × Tile) = p := by
  obtain ⟨k, t⟩ := p
  obtain ⟨s, b, e⟩ := t
  simp only at he
  rw [he]

theorem spawn_eta (p : Coord × MonsterSpawn) :
    ((p.1, MonsterSpawn.mk p.2.name p.2.respawn_ticks) : Coord × MonsterSpawn) = p := by
  obtain ⟨k, s⟩ := p
  rfl

/-! ## Claim theorems -/

/-- C4: when the trimmed form of a line starts with `---`, a `None` section
state becomes `"tiles"` regardless of any following text; otherwise the text
after the leading `---` is trimmed and becomes the new section name,
defaulting to `"tiles"` when empty. Nothing else in the state changes. -/
theorem delimiter_semantics (valid : List Int) (st : ParseState) (n : Nat)
    (line : List Char)
    (hd : startsDashes (pystrip (rstripChars ['\n', '\r'] line)) = true) :
    parseStep valid st (n, line) =
      match st.current_section with
      | none => { st with current_section := some "tiles".data }
      | some _ =>
        let section_name :=
          pystrip ((pystrip (rstripChars ['\n', '\r'] line)).drop 3)
        { st with current_section := some (if section_name.isEmpty then "tiles".data else section_name) } :=
  parseStep_dashes valid st n line hd

/-- Witness for C4: a concrete `--- examine` delimiter inside an already-open
section renames the section to `examine`, and a first delimiter with a name
still opens `tiles`. -/
theorem delimiter_semantics_witness :
    parseStep [] ⟨some "tiles".data, [], [], [], []⟩ (3, "--- examine".data) =
        ⟨some "examine".data, [], [], [], []⟩ ∧
      parseStep [] ⟨none, [], [], [], []⟩ (1, "--- ignoredname".data) =
        ⟨some "tiles".data, [], [], [], []⟩ := by
  constructor
  · exact (delimiter_semantics [] ⟨some "tiles".data, [], [], [], []⟩ 3
      "--- examine".data (by decide)).trans (by decide)
  · exact (delimiter_semantics [] ⟨none, [], [], [], []⟩ 1
      "--- ignoredname".data (by decide)).trans (by decide)

/-- C3: decoding is total — it returns a `MapData` for every content and
valid-sprite set (in this embedding every Python exception path of the line
parsers is modelled, and only the file-open step, outside the embedding, can
hard-fail). Every processing step either adds no warning, or adds exactly
one warning tagged with the line's 1-based number while leaving the section
state, header, tiles and spawns untouched (the line is skipped); and each
malformed-line category — wrong field count, integer-parse failure, invalid
sprite index, dangling examine reference, empty spawn name — produces such
a warning. -/
theorem decode_totality_and_warning_skip :
    (∀ (content : String) (valid : List Int),
      ∃ r : MapData × List Warning, decodeMap content valid = r) ∧
    (∀ (valid : List Int) (st : ParseState) (n : Nat) (line : List Char),
      (parseStep valid st (n, line)).warnings = st.warnings ∨
      ∃ m, parseStep valid st (n, line) =
        { st with warnings := st.warnings ++ [⟨n, m⟩] }) ∧
    (∀ (line : List Char) (n : Nat) (valid : List Int)
       (tiles : List (Coord × Tile)),
      (splitLim '\t' none line).length < 4 →
      parse_tile_line line n valid tiles =
        (tiles, [⟨n, "insufficient fields".data⟩])) ∧
    (∀ (line : List Char) (n : Nat) (valid : List Int)
       (tiles : List (Coord × Tile)) (f0 f1 f2 f3 : List Char)
       (rest : List (List Char)),
      splitLim '\t' none line = f0 :: f1 :: f2 :: f3 :: rest →
      pyParseInt f0 = none →
      parse_tile_line line n valid tiles =
        (tiles, [⟨n, "failed to parse tile".data⟩])) ∧
    (∀ (line : List Char) (n : Nat) (valid : List Int)
       (tiles : List (Coord × Tile)) (f0 f1 f2 f3 : List Char)
       (rest : List (List Char)) (x y s v : Int),
      splitLim '\t' none line = f0 :: f1 :: f2 :: f3 :: rest →
      pyParseInt f0 = some x → pyParseInt f1 = some y →
      pyParseInt f2 = some s → pyParseInt f3 = some v → s ∉ valid →
      parse_tile_line line n valid tiles =
        (tiles, [⟨n, "sprite index not in loaded atlas".data⟩])) ∧
    (∀ (line : List Char) (n : Nat) (tiles : List (Coord × Tile))
       (f0 f1 f2 : List Char) (rest : List (List Char)) (x y : Int),
      splitLim '\t' (some 2) line = f0 :: f1 :: f2 :: rest →
      pyParseInt f0 = some x → pyParseInt f1 = some y →
      alookup (x, y) tiles = none →
      parse_examine_line line n tiles =
        (tiles, [⟨n, "examine text for non-existent tile".data⟩])) ∧
    (∀ (line : List Char) (n : Nat) (spawns : List (Coord × MonsterSpawn))
       (f0 f1 f3 : List Char) (rest : List (List Char)) (x y ticks : Int),
      splitLim '\t' none line = f0 :: f1 :: [] :: f3 :: rest →
      pyParseInt f0 = some x → pyParseInt f1 = some y →
      pyParseInt f3 = some ticks →
      parse_spawn_line line n spawns =
        (spawns, [⟨n, "empty spawn name".data⟩])) := by
  refine ⟨fun content valid => ⟨_, rfl⟩, ?_, ?_, ?_, ?_, ?_, ?_⟩
  · intro valid st n line
    simp only [parseStep]
    split
    · left; rfl
    · split
      · left
        cases st.current_section <;> rfl
      · split
        · left; rfl
        · split
          · rcases parse_tile_line_cases (rstripChars ['\n', '\r'] line) n
                valid st.tiles with h | ⟨m, h⟩
            · left; simp [h]
            · right; exact ⟨m, by simp [h]⟩
          · split
            · rcases parse_examine_line_cases (rstripChars ['\n', '\r'] line) n
                  st.tiles with h | ⟨m, h⟩
              · left; simp [h]
              · right; exact ⟨m, by simp [h]⟩
            · split
              · rcases parse_spawn_line_cases (rstripChars ['\n', '\r'] line) n
                    st.spawns with h | ⟨m, h⟩
                · left; simp [h]
                · right; exact ⟨m, by simp [h]⟩
              · left; rfl
  · intro line n valid tiles hlen
    unfold parse_tile_line
    split
    · rename_i p0 p1 p2 p3 rest heq
      rw [heq] at hlen
      simp at hlen
      omega
    · rfl
  · intro line n valid tiles f0 f1 f2 f3 rest hsplit h0
    simp [parse_tile_line, hsplit, h0]
  · intro line n valid tiles f0 f1 f2 f3 rest x y s v hsplit h0 h1 h2 h3 hs
    simp [parse_tile_line, hsplit, h0, h1, h2, h3, hs]
  · intro line n tiles f0 f1 f2 rest x y hsplit h0 h1 hnone
    simp [parse_examine_line, hsplit, h0, h1, hnone]
  · intro line n spawns f0 f1 f3 rest x y ticks hsplit h0 h1 h3
    simp [parse_spawn_line, hsplit, h0, h1, h3]

/-- Witness for C3: a tiles-section line with a non-integer sprite field is
skipped with a warning tagged with its line number, and the state is
otherwise unchanged. -/
theorem decode_totality_and_warning_skip_witness :
    parseStep [] ⟨some "tiles".data, [], [], [], []⟩ (6, "1\t2\tx\t0".data) =
      ⟨some "tiles".data, [], [], [],
        [⟨6, "failed to parse tile".data⟩]⟩ := by
  rcases decode_totality_and_warning_skip.2.1 []
      ⟨some "tiles".data, [], [], [], []⟩ 6 "1\t2\tx\t0".data with h | ⟨m, h⟩
  · exact absurd h (by decide)
  · refine h.trans ?_
    have hm : m = "failed to parse tile".data := by
      have h2 := congrArg ParseState.warnings h
      rw [(by decide : parseStep []
        ⟨some "tiles".data, [], [], [], []⟩ (6, "1\t2\tx\t0".data) =
        ⟨some "tiles".data, [], [], [],
          [⟨6, "failed to parse tile".data⟩]⟩)] at h2
      simpa using h2.symm
    rw [hm]
    rfl

/-- C2: `encodeMap` writes tile lines, examine lines and spawn lines each in
strictly ascending (x, y) key order (x primary, then y) — the three line
lists are maps over `sortByKey`, whose entry sequence is strictly
`keyLt`-increasing — and two encodes of tiles/spawns mappings that are equal
as unordered mappings (permutations with distinct keys, i.e. equal dicts in
any insertion order) produce byte-identical output text. -/
theorem encode_sorted_deterministic :
    (∀ (tiles : List (Coord × Tile)) (spawns : List (Coord × MonsterSpawn)),
      (tiles.map Prod.fst).Nodup → (spawns.map Prod.fst).Nodup →
      (sortByKey tiles).Pairwise (fun u v => keyLt u.1 v.1) ∧
      (sortByKey (tiles.filter (fun p => p.2.examine_text.isSome))).Pairwise
        (fun u v => keyLt u.1 v.1) ∧
      (sortByKey spawns).Pairwise (fun u v => keyLt u.1 v.1)) ∧
    (∀ (tiles1 tiles2 : List (Coord × Tile))
       (spawns1 spawns2 : List (Coord × MonsterSpawn))
       (atlas : Option (List Char)),
      List.Perm tiles1 tiles2 → (tiles1.map Prod.fst).Nodup →
      List.Perm spawns1 spawns2 → (spawns1.map Prod.fst).Nodup →
      encodeMap tiles1 spawns1 atlas = encodeMap tiles2 spawns2 atlas) := by
  constructor
  · intro tiles spawns hndt hnds
    refine ⟨sortByKey_strict tiles hndt, ?_, sortByKey_strict spawns hnds⟩
    exact sortByKey_strict _
      (List.Nodup.sublist ((tiles.filter_sublist).map Prod.fst) hndt)
  · intro t1 t2 s1 s2 atlas hpt hndt hps hnds
    unfold encodeMap
    by_cases hemp : t1 = []
    · subst hemp
      rw [← hpt.nil_eq]
      rfl
    · have ht2 : t2 ≠ [] := by
        intro hc
        rw [hc] at hpt
        exact hemp hpt.eq_nil
      rw [if_neg (by simp [hemp]), if_neg (by simp [ht2])]
      rw [headerLines_perm t1 t2 atlas hpt hemp, tileLines_perm t1 t2 hpt hndt,
        examineLines_perm t1 t2 hpt hndt, spawnLines_perm s1 s2 hps hnds]

/-- Witness for C2: two insertion orders of the same three-tile, one-spawn
map encode to the same bytes, and the sorted key sequences are strict. -/
theorem encode_sorted_deterministic_witness :
    encodeMap [((0, 1), ⟨2, true, none⟩), ((-1, 5), ⟨0, false, some "w".data⟩),
        ((0, 0), ⟨1, false, none⟩)]
      [((0, 1), ⟨"Imp".data, 30⟩)] (some "a.png".data) =
    encodeMap [((0, 0), ⟨1, false, none⟩), ((0, 1), ⟨2, true, none⟩),
        ((-1, 5), ⟨0, false, some "w".data⟩)]
      [((0, 1), ⟨"Imp".data, 30⟩)] (some "a.png".data) :=
  encode_sorted_deterministic.2
    [((0, 1), ⟨2, true, none⟩), ((-1, 5), ⟨0, false, some "w".data⟩),
      ((0, 0), ⟨1, false, none⟩)]
    [((0, 0), ⟨1, false, none⟩), ((0, 1), ⟨2, true, none⟩),
      ((-1, 5), ⟨0, false, some "w".data⟩)]
    [((0, 1), ⟨"Imp".data, 30⟩)] [((0, 1), ⟨"Imp".data, 30⟩)]
    (some "a.png".data) (by decide) (by decide) (List.Perm.refl _) (by decide)

/-- C6: encoding an empty tiles mapping fails with the "cannot save empty
map" error for every spawns mapping and atlas argument, and produces no
content (the error is raised before the destination file is opened). -/
theorem encode_empty_map_rejected (spawns : List (Coord × MonsterSpawn))
    (atlas : Option (List Char)) :
    encodeMap [] spawns atlas = Except.error "Cannot save empty map".data := rfl

/-- C7: a line inside a section with an unrecognized name changes nothing —
no data, no warnings — and known sections appearing later in the same file
are still parsed normally (concrete file: an unknown `futuresection` between
the tiles and spawns sections, decoding with zero warnings). -/
theorem unknown_section_forward_compat :
    (∀ (valid : List Int) (st : ParseState) (n : Nat) (line s : List Char),
      st.current_section = some s → s ≠ "tiles".data → s ≠ "examine".data →
      s ≠ "spawns".data →
      startsDashes (pystrip (rstripChars ['\n', '\r'] line)) = false →
      parseStep valid st (n, line) = st) ∧
    decodeMap "---\n0\t0\t0\t0\n--- futuresection\nfoo\tbar\nsome stray data\n--- spawns\n0\t0\tRat\t9\n" [0] =
      (⟨[], [((0, 0), ⟨0, false, none⟩)], [((0, 0), ⟨"Rat".data, 9⟩)]⟩, []) := by
  constructor
  · intro valid st n line s hsec h1 h2 h3 hnd
    simp only [parseStep]
    split
    · rfl
    · rw [if_neg (by simp [hnd])]
      rw [hsec]
      simp only
      rw [if_neg h1, if_neg h2, if_neg h3]
  · decide

/-- Witness for C7: a concrete data line in a concrete unknown section
leaves the parse state untouched. -/
theorem unknown_section_forward_compat_witness :
    parseStep [] ⟨some "futuresection".data, [], [], [], []⟩
      (4, "foo\tbar".data) = ⟨some "futuresection".data, [], [], [], []⟩ :=
  unknown_section_forward_compat.1 [] ⟨some "futuresection".data, [], [], [], []⟩
    4 "foo\tbar".data "futuresection".data rfl (by decide) (by decide)
    (by decide) (by decide)

/-- C10: in both the map tiles-section decoder and the tile-defaults decoder,
a line whose blocked field parses as an integer `v` is accepted without any
warning and stores `blocked = (v ≠ 0)`; values other than 0 and 1 are not
rejected. -/
theorem blocked_flag_interpretation :
    (∀ (line : List Char) (n : Nat) (valid : List Int)
       (tiles : List (Coord × Tile)) (f0 f1 f2 f3 : List Char)
       (rest : List (List Char)) (x y s v : Int),
      splitLim '\t' none line = f0 :: f1 :: f2 :: f3 :: rest →
      pyParseInt f0 = some x → pyParseInt f1 = some y →
      pyParseInt f2 = some s → pyParseInt f3 = some v → s ∈ valid →
      parse_tile_line line n valid tiles =
        (upsert (x, y) ⟨s, v != 0, none⟩ tiles, [])) ∧
    (∀ (line : List Char) (n : Nat) (defaults : List (Int × TileDefaults))
       (f0 f1 : List Char) (rest : List (List Char)) (i v : Int),
      splitLim '\t' none line = f0 :: f1 :: rest →
      pyParseInt f0 = some i → pyParseInt f1 = some v →
      ∃ e, parse_defaults_line line n defaults =
        (upsert i ⟨v != 0, e⟩ defaults, [])) := by
  constructor
  · intro line n valid tiles f0 f1 f2 f3 rest x y s v hsplit h0 h1 h2 h3 hs
    simp [parse_tile_line, hsplit, h0, h1, h2, h3, hs]
  · intro line n defaults f0 f1 rest i v hsplit h0 h1
    cases rest with
    | nil => exact ⟨none, by simp [parse_defaults_line, hsplit, h0, h1]⟩
    | cons p2 tail =>
      exact ⟨if p2.isEmpty then none else some p2,
        by simp [parse_defaults_line, hsplit, h0, h1]⟩

/-- Witness for C10: blocked fields `2` and `-1` are accepted with no
warning and decode as `blocked = true` in both decoders. -/
theorem blocked_flag_interpretation_witness :
    parse_tile_line "4\t5\t0\t2".data 1 [0] [] =
        (upsert ((4 : Int), (5 : Int)) ⟨0, true, none⟩ [], []) ∧
      parse_defaults_line "7\t-1".data 1 [] =
        (upsert (7 : Int) ⟨true, none⟩ [], []) := by
  constructor
  · exact blocked_flag_interpretation.1 "4\t5\t0\t2".data 1 [0] []
      ['4'] ['5'] ['0'] ['2'] [] 4 5 0 2 (by decide) (by decide) (by decide)
      (by decide) (by decide) (by decide)
  · obtain ⟨e, he⟩ := blocked_flag_interpretation.2 "7\t-1".data 1 []
      ['7'] ['-', '1'] [] 7 (-1) (by decide) (by decide) (by decide)
    have henone : e = none := by
      have := he.symm.trans (by decide : parse_defaults_line "7\t-1".data 1 [] =
        (upsert (7 : Int) ⟨true, none⟩ [], []))
      simpa [upsert] using this
    rw [henone] at he
    exact he

/-- C9 counterexample: the tile-defaults decoder does not capture the third
field as the raw remainder of the line. On the line `0\t1\tA\tB` it stores
examine text `"A"`, not `"A\tB"`: the literal tab is not preserved. -/
theorem tile_defaults_tab_counterexample :
    (decodeTileDefaults "0\t1\tA\tB\n").1 = [(0, ⟨true, some ['A']⟩)] ∧
      ¬(decodeTileDefaults "0\t1\tA\tB\n").1 =
        [(0, ⟨true, some "A\tB".data⟩)] := by decide

/-- C9 amended: in the tile-defaults decoder the line is fully tab-split,
and the third field — when present and non-empty — is the text between the
second and the third tab; content after a further tab is dropped, so literal
tabs are not preserved. -/
theorem tile_defaults_third_field (line : List Char) (n : Nat)
    (defaults : List (Int × TileDefaults)) (f0 f1 f2 : List Char)
    (rest : List (List Char)) (i v : Int)
    (hsplit : splitLim '\t' none line = f0 :: f1 :: f2 :: rest)
    (h0 : pyParseInt f0 = some i) (h1 : pyParseInt f1 = some v) :
    parse_defaults_line line n defaults =
      (upsert i ⟨v != 0, if f2.isEmpty then none else some f2⟩ defaults, []) := by
  simp [parse_defaults_line, hsplit, h0, h1]

/-- Witness for C9 amended: on `0\t1\tA\tB` only `"A"` is stored. -/
theorem tile_defaults_third_field_witness :
    parse_defaults_line "0\t1\tA\tB".data 1 [] =
      (upsert (0 : Int) ⟨true, some ['A']⟩ [], []) :=
  tile_defaults_third_field "0\t1\tA\tB".data 1 [] ['0'] ['1'] ['A'] [['B']]
    0 1 (by decide) (by decide) (by decide)

/-- C5: an examine-section line with well-formed integer coordinates is
dropped with a warning when no tile exists at `(x, y)` at that moment, and
when a tile exists the line's text is attached to that tile (an examine line
is honored only if its coordinate's tile line appeared earlier). -/
theorem examine_cross_reference (line : List Char) (n : Nat)
    (tiles : List (Coord × Tile)) (f0 f1 f2 : List Char)
    (rest : List (List Char)) (x y : Int)
    (hsplit : splitLim '\t' (some 2) line = f0 :: f1 :: f2 :: rest)
    (hx : pyParseInt f0 = some x) (hy : pyParseInt f1 = some y) :
    (alookup (x, y) tiles = none →
      parse_examine_line line n tiles =
        (tiles, [⟨n, "examine text for non-existent tile".data⟩])) ∧
    (∀ t : Tile, alookup (x, y) tiles = some t →
      parse_examine_line line n tiles =
          (setExamine (x, y) (if f2.isEmpty then none else some f2) tiles, []) ∧
        alookup (x, y)
            (setExamine (x, y) (if f2.isEmpty then none else some f2) tiles) =
          some { t with examine_text := if f2.isEmpty then none else some f2 }) := by
  constructor
  · intro hnone
    simp [parse_examine_line, hsplit, hx, hy, hnone]
  · intro t ht
    refine ⟨by simp [parse_examine_line, hsplit, hx, hy, ht], ?_⟩
    exact alookup_setExamine _ _ t tiles ht

/-- Witness for C5: before the tile line for `(5, 5)` the examine line is
dropped with a warning; afterwards it attaches its text. -/
theorem examine_cross_reference_witness :
    parse_examine_line "5\t5\tAn altar".data 2 [] =
        ([], [⟨2, "examine text for non-existent tile".data⟩]) ∧
      parse_examine_line "5\t5\tAn altar".data 7 [((5, 5), ⟨3, false, none⟩)] =
        ([((5, 5), ⟨3, false, some "An altar".data⟩)], []) := by
  constructor
  · exact (examine_cross_reference "5\t5\tAn altar".data 2 [] ['5'] ['5']
      "An altar".data [] 5 5 (by decide) (by decide) (by decide)).1 (by decide)
  · have h := ((examine_cross_reference "5\t5\tAn altar".data 7
      [((5, 5), ⟨3, false, none⟩)] ['5'] ['5'] "An altar".data [] 5 5
      (by decide) (by decide) (by decide)).2 ⟨3, false, none⟩ (by decide)).1
    exact h.trans (by decide)

/-- C8 counterexample: decoding a file whose spawns section places a spawn
at `(0, 0)` with no tile anywhere yields that spawn, an empty tiles mapping,
and zero warnings — the decoder performs no spawn/tile co-location check. -/
theorem spawn_colocation_counterexample :
    decodeMap "---\n--- spawns\n0\t0\tRat\t50\n" [] =
      (⟨[], [], [((0, 0), ⟨"Rat".data, 50⟩)]⟩, []) := by decide

/-- C8 amended: a well-formed spawns-section line is accepted with no
warning whatever the tiles mapping holds — `_parse_spawn_line` never
consults the tiles, so decoded spawns need not sit on a tile (co-location is
enforced only by the interactive editor, not by the decoder). -/
theorem spawn_no_colocation_check (line : List Char) (n : Nat)
    (spawns : List (Coord × MonsterSpawn)) (f0 f1 f2 f3 : List Char)
    (rest : List (List Char)) (x y ticks : Int)
    (hsplit : splitLim '\t' none line = f0 :: f1 :: f2 :: f3 :: rest)
    (hx : pyParseInt f0 = some x) (hy : pyParseInt f1 = some y)
    (ht : pyParseInt f3 = some ticks) (hname : f2 ≠ []) :
    parse_spawn_line line n spawns = (upsert (x, y) ⟨f2, ticks⟩ spawns, []) := by
  simp [parse_spawn_line, hsplit, hx, hy, ht, hname]

/-- Witness for C8 amended: a concrete spawn line is accepted into an empty
spawns dict (with no tiles in existence at all). -/
theorem spawn_no_colocation_check_witness :
    parse_spawn_line "0\t0\tRat\t50".data 3 [] =
      (upsert ((0 : Int), (0 : Int)) ⟨"Rat".data, 50⟩ [], []) :=
  spawn_no_colocation_check "0\t0\tRat\t50".data 3 [] ['0'] ['0'] "Rat".data
    "50".data [] 0 0 50 (by decide) (by decide) (by decide) (by decide)
    (by decide)

/-- C1 counterexample: the round trip fails as universally stated. For the
one-tile map whose tile carries the empty examine text, decoding the encoded
text (with a valid-sprite set covering every sprite) yields a tile whose
examine text is `None`, so the decoded tiles mapping differs from the input
mapping. -/
theorem roundtrip_counterexample :
    (match encodeMap [((0, 0), ⟨0, false, some []⟩)] [] none with
      | Except.ok c => (parse_map_file c [0]).1.tiles
      | Except.error _ => []) = [((0, 0), ⟨0, false, none⟩)] ∧
      ¬List.Perm [((0, 0), (⟨0, false, none⟩ : Tile))]
        [((0, 0), (⟨0, false, some []⟩ : Tile))] := by decide

/-- C1 amended: the round trip holds for every representable map: tiles and
spawns mappings with distinct keys, every tile sprite in the valid set,
examine texts (when present) non-empty and free of newline/CR, spawn names
non-empty and free of tab/newline/CR, and an atlas path free of newline/CR.
Decoding the encoded text then returns tiles and spawns mappings equal (as
dicts, i.e. up to permutation of entries) to the inputs; headers aside. -/
theorem roundtrip_amended (tiles : List (Coord × Tile))
    (spawns : List (Coord × MonsterSpawn)) (valid : List Int)
    (atlas : Option (List Char)) (c : List Char)
    (hndt : (tiles.map Prod.fst).Nodup)
    (hnds : (spawns.map Prod.fst).Nodup)
    (hsprites : ∀ p ∈ tiles, (p : Coord × Tile).2.sprite ∈ valid)
    (hex : ∀ p ∈ tiles, ∀ e, (p : Coord × Tile).2.examine_text = some e →
      e ≠ [] ∧ ∀ d ∈ e, d ≠ '\n' ∧ d ≠ '\r')
    (hsp : ∀ p ∈ spawns, (p : Coord × MonsterSpawn).2.name ≠ [] ∧
      (∀ ch ∈ p.2.name, ch ≠ '\t') ∧ ∀ ch ∈ p.2.name, ch ≠ '\n' ∧ ch ≠ '\r')
    (hatlas : ∀ q, atlas = some q → ∀ d ∈ q, d ≠ '\n' ∧ d ≠ '\r')
    (henc : encodeMap tiles spawns atlas = Except.ok c) :
    List.Perm (parse_map_file c valid).1.tiles tiles ∧
      List.Perm (parse_map_file c valid).1.spawns spawns := by
  have hne : tiles ≠ [] := by
    intro hc
    rw [hc] at henc
    simp [encodeMap] at henc
  have hcjoin : joinLines (headerLines tiles atlas ++ tileLines tiles ++
      examineLines tiles ++ spawnLines spawns) = c := by
    unfold encodeMap at henc
    rw [if_neg (by simp [hne])] at henc
    simpa using henc
  subst hcjoin
  have hcleanL : ∀ l ∈ headerLines tiles atlas ++ tileLines tiles ++
      examineLines tiles ++ spawnLines spawns, ∀ d ∈ l, d ≠ '\n' ∧ d ≠ '\r' := by
    intro l hl
    rcases List.mem_append.mp hl with h1 | h1
    · rcases List.mem_append.mp h1 with h2 | h2
      · rcases List.mem_append.mp h2 with h3 | h3
        · exact headerLines_clean tiles atlas hatlas l h3
        · exact tileLines_clean tiles l h3
      · exact examineLines_clean tiles hex l h2
    · exact spawnLines_clean spawns hsp l h1
  have hpl := pyLines_joinLines _ hcleanL
  have hpermL0 : List.Perm (sortByKey tiles) tiles := sortByKey_perm tiles
  have hpermS0 : List.Perm (sortByKey spawns) spawns := sortByKey_perm spawns
  have hneT : (sortByKey tiles).Pairwise (fun u v => u.1 ≠ v.1) :=
    (sortByKey_strict tiles hndt).imp (fun h => keyLt_ne _ _ h)
  have hT0 : (sortByKey tiles).foldl
      (fun acc p => upsert p.1 ⟨p.2.sprite, p.2.blocked, none⟩ acc) [] =
      (sortByKey tiles).map (fun p => (p.1, Tile.mk p.2.sprite p.2.blocked none)) := by
    have := foldl_upsert_general (fun t : Tile => Tile.mk t.sprite t.blocked none)
      (sortByKey tiles) [] (by simp) hneT
    simpa using this
  obtain ⟨H, hA⟩ := run_headerLines valid initState 1 tiles atlas rfl hatlas
  have hB : ∀ n : Nat,
      (List.enumFrom n (tileLines tiles)).foldl (parseStep valid)
        ⟨some "tiles".data, H, [], [], []⟩ =
      ⟨some "tiles".data, H,
        (sortByKey tiles).map (fun p => (p.1, Tile.mk p.2.sprite p.2.blocked none)),
        [], []⟩ := by
    intro n
    have hrun := run_tileLines valid ⟨some "tiles".data, H, [], [], []⟩ n
      (sortByKey tiles) rfl
      (fun p hp => hsprites p (hpermL0.mem_iff.mp hp))
    rw [show tileLines tiles = (sortByKey tiles).map
      (fun p => serialize_tile p.1.1 p.1.2 p.2) from rfl, hrun]
    simp only
    rw [hT0]
  have hC : ∀ n : Nat, ∃ s3 : List Char,
      (List.enumFrom n (examineLines tiles)).foldl (parseStep valid)
        ⟨some "tiles".data, H,
          (sortByKey tiles).map (fun p => (p.1, Tile.mk p.2.sprite p.2.blocked none)),
          [], []⟩ =
      ⟨some s3, H, sortByKey tiles, [], []⟩ := by
    intro n
    by_cases hem : (tiles.filter (fun p => p.2.examine_text.isSome)).isEmpty = true
    · refine ⟨"tiles".data, ?_⟩
      have hnil : tiles.filter (fun p => p.2.examine_text.isSome) = [] :=
        List.isEmpty_iff.mp hem
      have hnone : ∀ p ∈ tiles, p.2.examine_text = none := by
        intro p hp
        have := List.filter_eq_nil_iff.mp hnil p hp
        simpa using this
      rw [show examineLines tiles = [] by simp [examineLines, hnil]]
      rw [show List.enumFrom n ([] : List (List Char)) = [] from rfl,
        List.foldl_nil]
      rw [map_eq_self_mem _ _ (fun p hp =>
        strip_eta p (hnone p (hpermL0.mem_iff.mp hp)))]
    · refine ⟨"examine".data, ?_⟩
      have hexline : examineLines tiles = "--- examine".data ::
          (sortByKey (tiles.filter (fun p => p.2.examine_text.isSome))).map
            (fun p => intStr p.1.1 ++ '\t' :: intStr p.1.2 ++ '\t' ::
              p.2.examine_text.getD []) := by
        simp [examineLines, hem]
      rw [hexline, show List.enumFrom n ("--- examine".data :: _) =
        (n, "--- examine".data) :: List.enumFrom (n + 1) _ from rfl,
        List.foldl_cons,
        parseStep_delim_examine valid _ n "tiles".data rfl]
      have hrun := run_examineEntryLines valid
        ⟨some "examine".data, H,
          (sortByKey tiles).map (fun p => (p.1, Tile.mk p.2.sprite p.2.blocked none)),
          [], []⟩ (n + 1)
        (sortByKey (tiles.filter (fun p => p.2.examine_text.isSome))) rfl
        ?hexE ?hmemE
      · rw [hrun]
        simp only
        rw [sortFilter_eq tiles hndt, restore_examine (sortByKey tiles) hneT]
      case hexE =>
        intro p hp
        have hpair := List.mem_filter.mp ((sortByKey_perm _).mem_iff.mp hp)
        obtain ⟨e, he⟩ := Option.isSome_iff_exists.mp hpair.2
        exact ⟨e, he, (hex p hpair.1 e he).1, (hex p hpair.1 e he).2⟩
      case hmemE =>
        intro p hp
        have hpair := List.mem_filter.mp ((sortByKey_perm _).mem_iff.mp hp)
        simp only [List.map_map]
        exact List.mem_map_of_mem _ (hpermL0.mem_iff.mpr hpair.1)
  have hD : ∀ (n : Nat) (s3 : List Char),
      (List.enumFrom n (spawnLines spawns)).foldl (parseStep valid)
        ⟨some s3, H, sortByKey tiles, [], []⟩ =
      ⟨(((List.enumFrom n (spawnLines spawns)).foldl (parseStep valid)
          ⟨some s3, H, sortByKey tiles, [], []⟩).current_section), H,
        sortByKey tiles, sortByKey spawns, []⟩ := by
    intro n s3
    by_cases hsm : spawns.isEmpty = true
    · have hnil : spawns = [] := List.isEmpty_iff.mp hsm
      subst hnil
      rw [show spawnLines [] = [] from rfl]
      rfl
    · have hspline : spawnLines spawns = "--- spawns".data ::
          (sortByKey spawns).map (fun p => intStr p.1.1 ++ '\t' ::
            intStr p.1.2 ++ '\t' :: p.2.name ++ '\t' ::
            intStr p.2.respawn_ticks) := by
        simp [spawnLines, hsm]
      rw [hspline, show List.enumFrom n ("--- spawns".data :: _) =
        (n, "--- spawns".data) :: List.enumFrom (n + 1) _ from rfl,
        List.foldl_cons,
        parseStep_delim_spawns valid _ n s3 rfl]
      have hrun := run_spawnEntryLines valid
        ⟨some "spawns".data, H, sortByKey tiles, [], []⟩ (n + 1)
        (sortByKey spawns) rfl
        (fun p hp => hsp p (hpermS0.mem_iff.mp hp))
      rw [hrun]
      simp only
      have hfold : (sortByKey spawns).foldl
          (fun acc p => upsert p.1 ⟨p.2.name, p.2.respawn_ticks⟩ acc) [] =
          sortByKey spawns := by
        have hneS : (sortByKey spawns).Pairwise (fun u v => u.1 ≠ v.1) :=
          (sortByKey_strict spawns hnds).imp (fun h => keyLt_ne _ _ h)
        have := foldl_upsert_general
          (fun s : MonsterSpawn => MonsterSpawn.mk s.name s.respawn_ticks)
          (sortByKey spawns) [] (by simp) hneS
        simp only [List.nil_append] at this
        rw [this, map_eq_self_mem _ _ (fun p _ => spawn_eta p)]
      rw [hfold]
  have hfinal : ((List.enumFrom 1 (headerLines tiles atlas ++ tileLines tiles ++
      examineLines tiles ++ spawnLines spawns)).foldl (parseStep valid)
        initState).tiles = sortByKey tiles ∧
      ((List.enumFrom 1 (headerLines tiles atlas ++ tileLines tiles ++
        examineLines tiles ++ spawnLines spawns)).foldl (parseStep valid)
          initState).spawns = sortByKey spawns := by
    have hA2 : (List.enumFrom 1 (headerLines tiles atlas)).foldl
        (parseStep valid) initState =
        (⟨some "tiles".data, H, [], [], []⟩ : ParseState) := hA
    rw [foldl_parseStep_append, foldl_parseStep_append, foldl_parseStep_append,
      hA2]
    rw [hB]
    obtain ⟨s3, hs3⟩ := hC
      (1 + (headerLines tiles atlas ++ tileLines tiles).length)
    rw [hs3, hD]
    exact ⟨rfl, rfl⟩
  rw [show (parse_map_file (joinLines (headerLines tiles atlas ++
      tileLines tiles ++ examineLines tiles ++ spawnLines spawns)) valid).1.tiles =
    ((List.enumFrom 1 (pyLines (joinLines (headerLines tiles atlas ++
      tileLines tiles ++ examineLines tiles ++ spawnLines spawns)))).foldl
        (parseStep valid) initState).tiles from rfl,
    show (parse_map_file (joinLines (headerLines tiles atlas ++
      tileLines tiles ++ examineLines tiles ++ spawnLines spawns)) valid).1.spawns =
    ((List.enumFrom 1 (pyLines (joinLines (headerLines tiles atlas ++
      tileLines tiles ++ examineLines tiles ++ spawnLines spawns)))).foldl
        (parseStep valid) initState).spawns from rfl, hpl, hfinal.1, hfinal.2]
  exact ⟨hpermL0, hpermS0⟩

/-- Witness for C1 amended: a concrete two-tile, one-spawn map (negative
coordinate, an examine text with an inner space, one spawn) round-trips. -/
theorem roundtrip_amended_witness :
    List.Perm (parse_map_file ((encodeMap
        [((0, 0), ⟨0, true, some "hi there".data⟩), ((-2, 3), ⟨5, false, none⟩)]
        [((0, 0), ⟨"Rat".data, 50⟩)]
        (some "foo/bar.png".data)).toOption.getD []) [0, 5]).1.tiles
      [((0, 0), ⟨0, true, some "hi there".data⟩), ((-2, 3), ⟨5, false, none⟩)] ∧
    List.Perm (parse_map_file ((encodeMap
        [((0, 0), ⟨0, true, some "hi there".data⟩), ((-2, 3), ⟨5, false, none⟩)]
        [((0, 0), ⟨"Rat".data, 50⟩)]
        (some "foo/bar.png".data)).toOption.getD []) [0, 5]).1.spawns
      [((0, 0), ⟨"Rat".data, 50⟩)] := by
  refine roundtrip_amended
    [((0, 0), ⟨0, true, some "hi there".data⟩), ((-2, 3), ⟨5, false, none⟩)]
    [((0, 0), ⟨"Rat".data, 50⟩)] [0, 5] (some "foo/bar.png".data)
    ((encodeMap
        [((0, 0), ⟨0, true, some "hi there".data⟩), ((-2, 3), ⟨5, false, none⟩)]
        [((0, 0), ⟨"Rat".data, 50⟩)]
        (some "foo/bar.png".data)).toOption.getD [])
    (by decide) (by decide) (by decide) ?_ (by decide) ?_ rfl
  · intro p hp e he
    rcases List.mem_cons.mp hp with rfl | hp2
    · injection he with he2
      subst he2
      exact ⟨by decide, by decide⟩
    · rcases List.mem_cons.mp hp2 with rfl | hp3
      · cases he
      · simp at hp3
  · intro q hq
    injection hq with hq2
    subst hq2
    decide

end Mapper
